import Mathlib

/-!
Verification development for the chat-parsing and statistics core of the
WhatsApp Chat Insights Dashboard (js/chatParser.js).

The JavaScript source is shallowly embedded:
 * strings are Lean `String`/`List Char` (JS strings are UTF-16, but every
   operation modelled here is per code point, matching the source's use of
   the `u` regex flag and of code-point-safe operations on the inputs the
   claims quantify over);
 * JS `Date` time values are `Int` milliseconds in the local (naive)
   calendar, built by the ECMAScript MakeDay/MakeTime arithmetic with
   month/day overflow, and a time value is "NaN" (an invalid Date) exactly
   when it falls outside the ECMAScript time range of ±8.64e15 ms;
 * JS numbers used by the statistics (minute gaps, averages) are `ℚ`;
   every quantity the claims touch is produced by exact arithmetic on
   integer millisecond timestamps, so no floating-point rounding is lost;
 * JS objects are insertion-ordered association lists, with
   `Object.entries` enumeration reordering canonical array-index keys
   first in ascending numeric order, as ECMAScript prescribes; JS `Map`s
   are plain insertion-ordered association lists;
 * `Array.prototype.sort` is a stable sort (mandated by ECMAScript),
   modelled by insertion sort `sortByKey`.
-/

namespace ChatCore

/-- Characters matched by the JavaScript regex class `\s`
    (ECMAScript WhiteSpace and LineTerminator code points). -/
def jsWhitespace (c : Char) : Bool :=
  c == ' ' || c == '\t' || c == '\n' || c == '\r' ||
  c.val == 11 || c.val == 12 ||
  c.val == 0xa0 || c.val == 0x1680 ||
  (0x2000 ≤ c.val && c.val ≤ 0x200a) ||
  c.val == 0x2028 || c.val == 0x2029 || c.val == 0x202f ||
  c.val == 0x205f || c.val == 0x3000 || c.val == 0xfeff

/-- ECMAScript line terminators (the code points excluded by the regex `.`). -/
def jsLineTerminator (c : Char) : Bool :=
  c == '\n' || c == '\r' || c.val == 0x2028 || c.val == 0x2029

/-- Drop trailing characters satisfying `p` (helper for `String.prototype.trim`). -/
def dropEndWhile (p : Char → Bool) (l : List Char) : List Char :=
  (l.reverse.dropWhile p).reverse

/-- `String.prototype.trim` on a character list. -/
def jsTrimList (l : List Char) : List Char :=
  dropEndWhile jsWhitespace (l.dropWhile jsWhitespace)

/-- `String.prototype.trim`. -/
def jsTrim (s : String) : String :=
  String.mk (jsTrimList s.toList)

theorem dropWhile_dropWhile (p : Char → Bool) (l : List Char) :
    (l.dropWhile p).dropWhile p = l.dropWhile p := by
  induction l with
  | nil => rfl
  | cons c t ih =>
      by_cases h : p c
      · simpa [List.dropWhile, h] using ih
      · simp [List.dropWhile, h]

theorem head_dropWhile_false (p : Char → Bool) (l : List Char) (c : Char)
    (t : List Char) (h : l.dropWhile p = c :: t) : p c = false := by
  induction l with
  | nil => simp at h
  | cons a s ih =>
      by_cases ha : p a
      · exact ih (by simpa [List.dropWhile, ha] using h)
      · rw [List.dropWhile_cons_of_neg (by simpa using ha)] at h
        cases h
        simpa using ha

/-- If the first character of `l` does not satisfy `p`, `dropWhile p` keeps `l`. -/
theorem dropWhile_of_head_false (p : Char → Bool) (l : List Char)
    (h : ∀ c t, l = c :: t → p c = false) : l.dropWhile p = l := by
  cases l with
  | nil => rfl
  | cons c t => rw [List.dropWhile_cons_of_neg (by simp [h c t rfl])]

theorem dropEndWhile_prefix (p : Char → Bool) (l : List Char) :
    ∃ suf, l = dropEndWhile p l ++ suf := by
  obtain ⟨pre, h⟩ := List.dropWhile_suffix (l := l.reverse) (p := p)
  have h2 := congrArg List.reverse h
  rw [List.reverse_append, List.reverse_reverse] at h2
  exact ⟨pre.reverse, by rw [dropEndWhile]; exact h2.symm⟩

theorem dropEndWhile_dropEndWhile (p : Char → Bool) (l : List Char) :
    dropEndWhile p (dropEndWhile p l) = dropEndWhile p l := by
  simp [dropEndWhile, dropWhile_dropWhile]

theorem jsTrimList_idem (l : List Char) :
    jsTrimList (jsTrimList l) = jsTrimList l := by
  unfold jsTrimList
  have h1 : (dropEndWhile jsWhitespace (l.dropWhile jsWhitespace)).dropWhile
      jsWhitespace = dropEndWhile jsWhitespace (l.dropWhile jsWhitespace) := by
    apply dropWhile_of_head_false
    intro c t hct
    obtain ⟨suf, hsuf⟩ := dropEndWhile_prefix jsWhitespace (l.dropWhile jsWhitespace)
    rw [hct] at hsuf
    exact head_dropWhile_false jsWhitespace l c (t ++ suf) (by simpa using hsuf)
  rw [h1, dropEndWhile_dropEndWhile]

theorem jsTrim_idem (s : String) : jsTrim (jsTrim s) = jsTrim s := by
  simp [jsTrim, jsTrimList_idem]

/-- Stable insertion of `x` into a list sorted ascending on `key`:
    `x` goes before the first element whose key is ≥ its own, matching the
    stable-sort guarantee of `Array.prototype.sort` for elements that were
    earlier in the original array. -/
def insKey (key : α → Int) (x : α) : List α → List α
  | [] => [x]
  | y :: ys => if key x ≤ key y then x :: y :: ys else y :: insKey key x ys

/-- Stable sort ascending on `key` (= `Array.prototype.sort` with the numeric
    comparator `(a, b) => key(a) - key(b)`; a descending comparator is
    modelled by negating the key). -/
def sortByKey (key : α → Int) (l : List α) : List α :=
  l.foldr (insKey key) []

theorem insKey_perm (key : α → Int) (x : α) (l : List α) :
    List.Perm (insKey key x l) (x :: l) := by
  induction l with
  | nil => exact List.Perm.refl _
  | cons y ys ih =>
      by_cases h : key x ≤ key y
      · rw [show insKey key x (y :: ys) = x :: y :: ys by simp [insKey, h]]
      · rw [show insKey key x (y :: ys) = y :: insKey key x ys by
          simp [insKey, h]]
        exact (ih.cons y).trans (List.Perm.swap x y ys)

theorem sortByKey_perm (key : α → Int) (l : List α) :
    List.Perm (sortByKey key l) l := by
  induction l with
  | nil => exact List.Perm.refl _
  | cons x t ih => exact (insKey_perm key x (sortByKey key t)).trans (ih.cons x)

theorem insKey_pairwise (key : α → Int) (x : α) (l : List α)
    (h : l.Pairwise (fun a b => key a ≤ key b)) :
    (insKey key x l).Pairwise (fun a b => key a ≤ key b) := by
  induction l with
  | nil => simp [insKey]
  | cons y ys ih =>
      rcases List.pairwise_cons.mp h with ⟨hy, hys⟩
      by_cases hxy : key x ≤ key y
      · rw [show insKey key x (y :: ys) = x :: y :: ys by simp [insKey, hxy]]
        refine List.pairwise_cons.mpr ⟨?_, h⟩
        intro b hb
        rcases List.mem_cons.mp hb with hb | hb
        · subst hb; exact hxy
        · exact le_trans hxy (hy b hb)
      · rw [show insKey key x (y :: ys) = y :: insKey key x ys by
          simp [insKey, hxy]]
        refine List.pairwise_cons.mpr ⟨?_, ih hys⟩
        intro b hb
        have hb2 := (insKey_perm key x ys).mem_iff.mp hb
        rcases List.mem_cons.mp hb2 with hb2 | hb2
        · subst hb2; omega
        · exact hy b hb2

theorem sortByKey_pairwise (key : α → Int) (l : List α) :
    (sortByKey key l).Pairwise (fun a b => key a ≤ key b) := by
  induction l with
  | nil => simp [sortByKey]
  | cons x t ih => exact insKey_pairwise key x (sortByKey key t) ih

theorem insKey_filter_key (key : α → Int) (x : α) (l : List α) (c : Int) :
    (insKey key x l).filter (fun a => decide (key a = c)) =
      if key x = c then x :: l.filter (fun a => decide (key a = c))
      else l.filter (fun a => decide (key a = c)) := by
  induction l with
  | nil => by_cases h : key x = c <;> simp [insKey, List.filter, h]
  | cons y ys ih =>
      by_cases hxy : key x ≤ key y
      · rw [show insKey key x (y :: ys) = x :: y :: ys by simp [insKey, hxy]]
        by_cases hxc : key x = c <;> simp [List.filter_cons, hxc]
      · rw [show insKey key x (y :: ys) = y :: insKey key x ys by
          simp [insKey, hxy]]
        by_cases hyc : key y = c
        · have hxc : key x ≠ c := by omega
          simp [List.filter_cons, hyc, hxc, ih]
        · by_cases hxc : key x = c <;> simp [List.filter_cons, hyc, hxc, ih]

/-- Stability of `sortByKey`: elements sharing one key value keep their
    original relative order. -/
theorem sortByKey_filter_key (key : α → Int) (l : List α) (c : Int) :
    (sortByKey key l).filter (fun a => decide (key a = c)) =
      l.filter (fun a => decide (key a = c)) := by
  induction l with
  | nil => rfl
  | cons x t ih =>
      rw [show sortByKey key (x :: t) = insKey key x (sortByKey key t) from rfl,
        insKey_filter_key key x _ c]
      by_cases h : key x = c <;> simp [List.filter_cons, h, ih]

theorem sortByKey_length (key : α → Int) (l : List α) :
    (sortByKey key l).length = l.length :=
  (sortByKey_perm key l).length_eq

/-! ### JS objects and Maps as insertion-ordered association lists -/

/-- Property read `m[k]` on a JS object / `Map.prototype.get`. -/
def alistGet [BEq K] (m : List (K × V)) (k : K) : Option V :=
  match m with
  | [] => none
  | e :: t => if e.1 == k then some e.2 else alistGet t k

/-- Property write `m[k] = v` / `Map.prototype.set`: overwrites in place,
    otherwise appends (insertion order preserved, as in ECMAScript). -/
def alistSet [BEq K] (m : List (K × V)) (k : K) (v : V) : List (K × V) :=
  match m with
  | [] => [(k, v)]
  | e :: t => if e.1 == k then (k, v) :: t else e :: alistSet t k v

/-- Numeric value of a decimal digit string. -/
def digitsVal (l : List Char) : Nat :=
  l.foldl (fun a c => a * 10 + (c.toNat - 48)) 0

/-- Canonical array-index keys of a JS object ("0", or digits without a
    leading zero, with value below 2^32 − 1). `Object.entries` enumerates
    these first, in ascending numeric order, before the remaining string
    keys in insertion order. -/
def isArrayIndexKey (s : String) : Bool :=
  match s.toList with
  | [] => false
  | c :: t => c.isDigit && t.all Char.isDigit &&
      (c != '0' || t.isEmpty) && digitsVal (c :: t) < 4294967295

/-- `Object.entries` enumeration order for a JS object held as an
    insertion-ordered association list. -/
def jsEntries (m : List (String × V)) : List (String × V) :=
  sortByKey (fun e => (digitsVal e.1.toList : Int))
      (m.filter (fun e => isArrayIndexKey e.1)) ++
    m.filter (fun e => !isArrayIndexKey e.1)

/-! ### JS Date arithmetic (local/naive calendar) -/

/-- Day number (days since 1970-01-01) of a civil date with month ∈ [1, 12]:
    the arithmetic of ECMAScript MakeDay for an in-range month
    (days_from_civil). -/
def daysFromCivil (y m d : Int) : Int :=
  let y2 := if m ≤ 2 then y - 1 else y
  let era := y2 / 400
  let yoe := y2 - era * 400
  let mp := (m + 9) % 12
  let doy := (153 * mp + 2) / 5 + d - 1
  let doe := yoe * 365 + yoe / 4 - yoe / 100 + doy
  era * 146097 + doe - 719468

/-- Time value (ms) of `new Date(year, monthIndex, day, h, mi, s)` in the
    naive local calendar: ECMAScript MakeDay (month overflow folded into the
    year, day overflow into plain day arithmetic) plus MakeTime. -/
def jsDateMs (year monthIndex day h mi s : Int) : Int :=
  let ym := year + monthIndex / 12
  let mn := monthIndex % 12
  (daysFromCivil ym (mn + 1) 1 + (day - 1)) * 86400000 +
    h * 3600000 + mi * 60000 + s * 1000

/-- ECMAScript TimeClip: a `Date` holds NaN exactly when its time value lies
    outside ±8.64e15 ms; `Number.isNaN(date.getTime())` is this test. -/
def timestampIsNaN (t : Int) : Bool :=
  decide (t < -8640000000000000) || decide (8640000000000000 < t)

/-- ECMAScript Day(t): the local calendar day an instant falls on. Two
    instants have equal `toDateString()` / local calendar date iff they have
    equal `jsDay`. -/
def jsDay (t : Int) : Int := t / 86400000

theorem daysFromCivil_epoch : daysFromCivil 1970 1 1 = 0 := by decide

/-! ### Header matcher (js/chatParser.js `headerPatterns`, `matchMessageHeader`) -/

/-- One matched header: `day`/`month`/`year` hold `parseInt` of the captured
    1–2/1–2/2–4 digit tokens, `time` the captured time token after the
    source's narrow-space normalisation and trim, `rest` the remainder. -/
structure RawHeader where
  day : Nat
  month : Nat
  year : Nat
  time : String
  rest : String
  deriving DecidableEq, Repr

/-- Consume one expected character. -/
def expectChar (c : Char) : List Char → Option (List Char)
  | [] => none
  | a :: t => if a == c then some t else none

/-- Consume one `\s` character. -/
def expectWs : List Char → Option (List Char)
  | [] => none
  | a :: t => if jsWhitespace a then some t else none

/-- Match `\d{lo,hi}` when followed by a non-digit: the greedy quantifier
    must consume the entire digit run (a leftover digit would make the next
    literal fail on every backtrack), so the run length must lie in
    [lo, hi]. -/
def takeDigits (lo hi : Nat) (l : List Char) : Option (List Char × List Char) :=
  let ds := l.takeWhile Char.isDigit
  if lo ≤ ds.length && ds.length ≤ hi then some (ds, l.dropWhile Char.isDigit)
  else none

/-- Match `\d{n}` (exact). -/
def takeExactDigits (n : Nat) (l : List Char) : Option (List Char × List Char) :=
  let ds := l.take n
  if ds.length = n && ds.all Char.isDigit then some (ds, l.drop n) else none

/-- Split at the first occurrence of `c` (for `([^x]+)x` shapes). -/
def breakAt (c : Char) : List Char → Option (List Char × List Char)
  | [] => none
  | a :: t =>
      if a == c then some ([], t)
      else match breakAt c t with
        | none => none
        | some (pre, suf) => some (a :: pre, suf)

/-- The source's time-token normalisation:
    `match[4].replace(/[  ]/g, ' ').trim()`. -/
def normaliseTimeToken (l : List Char) : String :=
  String.mk (jsTrimList (l.map (fun c =>
    if c.val == 0x202f || c.val == 0xa0 then ' ' else c)))

/-- First header layout:
    `/^\[(\d{1,2})\/(\d{1,2})\/(\d{2,4}),\s([^\]]+)\]\s(.+)$/`. -/
def matchHeader1 (l : List Char) : Option RawHeader := do
  let r1 ← expectChar '[' l
  let (ds, r2) ← takeDigits 1 2 r1
  let r3 ← expectChar '/' r2
  let (ms, r4) ← takeDigits 1 2 r3
  let r5 ← expectChar '/' r4
  let (ys, r6) ← takeDigits 2 4 r5
  let r7 ← expectChar ',' r6
  let r8 ← expectWs r7
  let (timeChunk, r9) ← breakAt ']' r8
  if timeChunk.isEmpty then none else
  let r10 ← expectWs r9
  if r10.isEmpty || r10.any jsLineTerminator then none else
  some { day := digitsVal ds, month := digitsVal ms, year := digitsVal ys,
         time := normaliseTimeToken timeChunk, rest := String.mk r10 }

/-- The optional `(?:\s?[AP]M)?` (case-sensitive in the header pattern);
    returns the consumed characters and the remainder. As the following
    mandatory `\s` cannot match where `[AP]` just failed, greedy matching
    with no backtracking is faithful here. -/
def takeAmPm (l : List Char) : List Char × List Char :=
  match l with
  | w :: a :: m :: rest =>
      if jsWhitespace w && (a == 'A' || a == 'P') && m == 'M' then
        ([w, a, m], rest)
      else if (w == 'A' || w == 'P') && a == 'M' then ([w, a], m :: rest)
      else ([], l)
  | a :: m :: rest =>
      if (a == 'A' || a == 'P') && m == 'M' then ([a, m], rest) else ([], l)
  | _ => ([], l)

/-- Second header layout:
    `/^(\d{1,2})\/(\d{1,2})\/(\d{2,4}),\s(\d{1,2}:\d{2}(?::\d{2})?(?:\s?[AP]M)?)\s-\s(.+)$/`. -/
def matchHeader2 (l : List Char) : Option RawHeader := do
  let (ds, r2) ← takeDigits 1 2 l
  let r3 ← expectChar '/' r2
  let (ms, r4) ← takeDigits 1 2 r3
  let r5 ← expectChar '/' r4
  let (ys, r6) ← takeDigits 2 4 r5
  let r7 ← expectChar ',' r6
  let r8 ← expectWs r7
  let (hs, r9) ← takeDigits 1 2 r8
  let r10 ← expectChar ':' r9
  let (mins, r11) ← takeExactDigits 2 r10
  let (secs, r12) :=
    match r11 with
    | ':' :: rest =>
        match takeExactDigits 2 rest with
        | some (ss, r) => (':' :: ss, r)
        | none => (([] : List Char), r11)
    | _ => (([] : List Char), r11)
  let (ampm, r13) := takeAmPm r12
  let r14 ← expectWs r13
  let r15 ← expectChar '-' r14
  let r16 ← expectWs r15
  if r16.isEmpty || r16.any jsLineTerminator then none else
  some { day := digitsVal ds, month := digitsVal ms, year := digitsVal ys,
         time := normaliseTimeToken (hs ++ ':' :: mins ++ secs ++ ampm),
         rest := String.mk r16 }

/-- `matchMessageHeader`: the two layouts are tried in order; first match
    wins. -/
def matchMessageHeader (line : String) : Option RawHeader :=
  match matchHeader1 line.toList with
  | some h => some h
  | none => matchHeader2 line.toList

/-! ### Timestamp builder (`parseDate`) -/

/-- Date-token order. -/
inductive Format where
  | DMY
  | MDY
  deriving DecidableEq, Repr

/-- A match of `/^(\d{1,2}):(\d{2})(?::(\d{2}))?(?:\s?([AP]M))?$/i` on the
    time token; `isPM` records whether the captured period, uppercased, is
    PM. -/
structure TimeMatch where
  h : Nat
  m : Nat
  s : Nat
  period : Option Bool
  deriving DecidableEq, Repr

/-- The anchored, case-insensitive time regex of `parseDate`. A failure of
    the later `$` cannot be repaired by taking a shorter optional group
    (shorter consumption leaves a longer remainder), so greedy matching with
    no backtracking is faithful. -/
def matchTimeRegex (l : List Char) : Option TimeMatch := do
  let (hs, r1) ← takeDigits 1 2 l
  let r2 ← expectChar ':' r1
  let (mins, r3) ← takeExactDigits 2 r2
  let (secs, r4) :=
    match r3 with
    | ':' :: rest =>
        match takeExactDigits 2 rest with
        | some (ss, r) => (some ss, r)
        | none => (none, r3)
    | _ => (none, r3)
  let isP (c : Char) : Bool := c == 'P' || c == 'p'
  let isA (c : Char) : Bool := c == 'A' || c == 'a'
  let isM (c : Char) : Bool := c == 'M' || c == 'm'
  let (period, r5) :=
    match r4 with
    | w :: a :: m :: rest =>
        if jsWhitespace w && (isA a || isP a) && isM m then (some (isP a), rest)
        else if (isA w || isP w) && isM a then (some (isP w), m :: rest)
        else (none, r4)
    | a :: m :: rest =>
        if (isA a || isP a) && isM m then (some (isP a), rest) else (none, r4)
    | _ => (none, r4)
  if !r5.isEmpty then none else
  some { h := digitsVal hs, m := digitsVal mins,
         s := match secs with | some ss => digitsVal ss | none => 0,
         period := period }

/-- `parseDate(day, month, year, timeStr, format)`: token swap for MDY,
    two-digit-year window, time-regex defaults, AM/PM adjustment, and the
    `new Date(y, m - 1, d, hours, minutes, seconds)` construction. -/
def parseDate (day month year : Nat) (timeStr : String) (format : Format) :
    Int :=
  let d0 : Int := day
  let m0 : Int := month
  let d := if format = .MDY then m0 else d0
  let m := if format = .MDY then d0 else m0
  let y0 : Int := year
  let y := if y0 < 100 then (if y0 ≥ 70 then y0 + 1900 else y0 + 2000) else y0
  let tm := matchTimeRegex timeStr.toList
  let hours0 : Int := match tm with | some t => t.h | none => 0
  let minutes : Int := match tm with | some t => t.m | none => 0
  let seconds : Int := match tm with | some t => t.s | none => 0
  let period : Option Bool := match tm with | some t => t.period | none => none
  let hours : Int :=
    match period with
    | some true => if hours0 < 12 then hours0 + 12 else hours0
    | some false => if hours0 = 12 then 0 else hours0
    | none => hours0
  jsDateMs y (m - 1) d hours minutes seconds

/-! ### Date Format Resolver (`determineDateFormat`) -/

/-- Per-format evaluation metrics attached to an ambiguous resolution. -/
structure FormatEval where
  format : Format
  decreases : Nat
  span : Int
  validCount : Nat
  deriving DecidableEq, Repr

/-- Resolution result. -/
structure FormatResult where
  format : Format
  ambiguous : Bool
  candidates : List FormatEval
  deriving DecidableEq, Repr

/-- The body of `evaluateFormat`'s loop; carries `previous`, `firstDate`,
    `lastDate` (JS `Date` objects are always truthy, so `firstDate` is the
    first valid sample and `previous`/`lastDate` the latest valid one) and
    returns `(firstDate, lastDate, decreases, validCount)`. -/
def evalLoop (format : Format) :
    List RawHeader → Option Int → Option Int → Option Int → Nat → Nat →
      Option Int × Option Int × Nat × Nat
  | [], _, first, last, dec, val => (first, last, dec, val)
  | h :: t, prev, first, last, dec, val =>
      let cd := parseDate h.day h.month h.year h.time format
      if timestampIsNaN cd then evalLoop format t prev first last dec val
      else
        let first2 := match first with | none => some cd | some f => some f
        let dec2 := match prev with
          | some p => if cd < p then dec + 1 else dec
          | none => dec
        evalLoop format t (some cd) first2 (some cd) dec2 (val + 1)

/-- `evaluateFormat`. -/
def evaluateFormat (samples : List RawHeader) (format : Format) : FormatEval :=
  let r := evalLoop format samples none none none 0 0
  let span := match r.1, r.2.1 with
    | some first, some last => |last - first|
    | _, _ => 0
  { format := format, decreases := r.2.2.1, span := span,
    validCount := r.2.2.2 }

/-- One step of the `evaluations.reduce` comparison (with non-null
    accumulator): fewer decreases, then smaller span, then greater valid
    count, then keep the current best. -/
def betterEval (currentBest candidate : FormatEval) : FormatEval :=
  if candidate.decreases ≠ currentBest.decreases then
    (if candidate.decreases < currentBest.decreases then candidate
     else currentBest)
  else if candidate.span ≠ currentBest.span then
    (if candidate.span < currentBest.span then candidate else currentBest)
  else if candidate.validCount ≠ currentBest.validCount then
    (if candidate.validCount > currentBest.validCount then candidate
     else currentBest)
  else currentBest

/-- The header scan of `determineDateFormat`: early conclusive return
    (`.inl`), or the collected ambiguous samples, capped at 50 (`.inr`). -/
def ddfLoop : List String → List RawHeader → FormatResult ⊕ List RawHeader
  | [], acc => Sum.inr acc
  | line :: rest, acc =>
      match matchMessageHeader line with
      | none => ddfLoop rest acc
      | some h =>
          if h.day > 12 && h.month ≤ 12 then
            Sum.inl { format := .DMY, ambiguous := false, candidates := [] }
          else if h.month > 12 && h.day ≤ 12 then
            Sum.inl { format := .MDY, ambiguous := false, candidates := [] }
          else if h.day ≤ 12 && h.month ≤ 12 then
            let acc2 := acc ++ [h]
            if acc2.length ≥ 50 then Sum.inr acc2 else ddfLoop rest acc2
          else ddfLoop rest acc

/-- `determineDateFormat`; the two-element `reduce` over
    `['DMY', 'MDY'].map(evaluateFormat)` unfolds to
    `betterEval e1 e2` with the day-first evaluation as the initial best. -/
def determineDateFormat (lines : List String) : FormatResult :=
  match ddfLoop lines [] with
  | Sum.inl r => r
  | Sum.inr samples =>
      if samples.isEmpty then
        { format := .DMY, ambiguous := false, candidates := [] }
      else
        let e1 := evaluateFormat samples .DMY
        let e2 := evaluateFormat samples .MDY
        { format := (betterEval e1 e2).format, ambiguous := true,
          candidates := [e1, e2] }

/-! ### Transcript assembler (`parseChat`) -/

/-- Message kind. -/
inductive MsgKind where
  | message
  | system
  deriving DecidableEq, Repr

/-- A message record. -/
structure Msg where
  timestamp : Int
  author : String
  content : String
  type : MsgKind
  deriving DecidableEq, Repr

/-- `normaliseAuthor`: falsy (empty) → sentinel; otherwise strip one
    surrounding quote on each side (`replace(/^"|"$/g, '')`) and trim. -/
def stripOuterQuotes (l : List Char) : List Char :=
  let l1 := match l with
    | c :: t => if c == '"' then t else c :: t
    | [] => []
  if l1.getLast? == some '"' then l1.dropLast else l1

def normaliseAuthor (author : String) : String :=
  if author = "" then "System"
  else jsTrim (String.mk (stripOuterQuotes author.toList))

/-- `rest.split(/:\s/)`: split at every colon followed by a single `\s`
    character (both characters consumed). -/
def splitColonWs : List Char → List Char → List String
  | [], cur => [String.mk cur.reverse]
  | [c], cur => [String.mk (cur.reverse ++ [c])]
  | c1 :: c2 :: rest, cur =>
      if c1 == ':' && jsWhitespace c2 then
        String.mk cur.reverse :: splitColonWs rest []
      else splitColonWs (c2 :: rest) (c1 :: cur)

/-- Record construction from a matched header's remainder
    (chatParser.js lines 203–220). -/
def buildRecord (timestamp : Int) (rest : String) : Msg :=
  let authorSplit := splitColonWs rest.toList []
  match authorSplit with
  | a :: b :: t =>
      { timestamp := timestamp, author := normaliseAuthor a,
        content := jsTrim (String.intercalate ": " (b :: t)),
        type := .message }
  | _ =>
      { timestamp := timestamp, author := "System", content := jsTrim rest,
        type := .system }

/-- Flush the open record (trimmed) into the output sequence. -/
def flushCurrent (st : List Msg × Option Msg) : List Msg :=
  match st.2 with
  | some cur => st.1 ++ [{ cur with content := jsTrim cur.content }]
  | none => st.1

/-- One line of the assembler loop. -/
def asmStep (format : Format) (st : List Msg × Option Msg) (line : String) :
    List Msg × Option Msg :=
  match matchMessageHeader line with
  | some h =>
      (flushCurrent st,
        some (buildRecord (parseDate h.day h.month h.year h.time format)
          h.rest))
  | none =>
      match st.2 with
      | some cur =>
          (st.1, some { cur with content := cur.content ++ "\n" ++ line })
      | none => st

/-- `text.split(/\r?\n/)`. -/
def splitLines : List Char → List Char → List String
  | [], cur => [String.mk cur.reverse]
  | '\r' :: '\n' :: rest, cur => String.mk cur.reverse :: splitLines rest []
  | '\n' :: rest, cur => String.mk cur.reverse :: splitLines rest []
  | c :: rest, cur => splitLines rest (c :: cur)

/-- Parse options (`{ dateFormat }`). -/
structure ParseOptions where
  dateFormat : Option Format
  deriving DecidableEq, Repr

/-- Result of `parseChat`. -/
structure ParseResult where
  messages : List Msg
  dateFormat : Format
  ambiguous : Bool
  candidates : List FormatEval
  usedOverride : Bool
  deriving DecidableEq, Repr

/-- `parseChat(rawText, options)`; `none`/`some ""` model the falsy raw
    texts (absent / empty). -/
def parseChat (rawText : Option String) (options : ParseOptions) :
    ParseResult :=
  let falsy := match rawText with
    | none => true
    | some s => s = ""
  if falsy then
    { messages := [], dateFormat := options.dateFormat.getD .DMY,
      ambiguous := false, candidates := [],
      usedOverride := options.dateFormat.isSome }
  else
    let raw := match rawText with | some s => s | none => ""
    let text := raw.toList.filter (fun c => c.val != 0xfeff)
    let lines := splitLines text []
    let determination := determineDateFormat lines
    let format := options.dateFormat.getD determination.format
    let st := lines.foldl (asmStep format) ([], none)
    let messages := flushCurrent st
    { messages := messages.filter (fun msg => !timestampIsNaN msg.timestamp),
      dateFormat := format,
      ambiguous := determination.ambiguous,
      candidates := determination.candidates,
      usedOverride := options.dateFormat.isSome }

/-! ### Statistics aggregator (`computeStatistics`) -/

/-- The fixed stop-word set of the source (order is irrelevant: only
    membership is consumed). -/
def stopWords : List String :=
  ["the", "and", "you", "for", "that", "with", "this", "have", "but", "not",
   "are", "your", "was", "get", "got", "just", "they", "them", "what",
   "when", "from", "there", "their", "would", "could", "about", "will",
   "cant", "dont", "didnt", "im", "its", "were", "had", "has", "how", "all",
   "out", "now", "like", "yeah", "yes", "she", "his", "her", "who", "him",
   "our", "one", "why", "too", "wasnt", "havent", "into", "then", "than",
   "ill", "ive", "did", "okay", "ok", "sure", "well", "also", "more",
   "some", "been", "over", "here", "back", "much", "make", "really",
   "know", "going", "want", "time", "see", "let", "say", "good", "thanks",
   "thank", "thats", "doesnt", "aint", "u", "ur", "lol", "omg", "lmfao",
   "lmao", "haha", "hahaha", "http", "https", "to", "is", "in", "on", "at",
   "we", "me", "my", "do", "if", "as", "be", "an", "or", "by", "no", "up",
   "so", "it", "he", "ya", "oh", "hadnt", "should", "theyll", "theyd",
   "theirs", "ours", "mine", "of", "can"]

/-- Substring containment (`String.prototype.includes`). -/
def listContainsSub (hay pat : List Char) : Bool :=
  match hay with
  | [] => pat.isEmpty
  | _ :: t => pat.isPrefixOf hay || listContainsSub t pat

/-- `isMediaMessage`: falsy content → false; otherwise case-insensitive
    substring checks on the lowercased content. -/
def isMediaMessage (content : String) : Bool :=
  if content = "" then false
  else
    let lc := content.toList.map Char.toLower
    listContainsSub lc "omitted".toList ||
    listContainsSub lc "<media".toList ||
    listContainsSub lc "image omitted".toList ||
    listContainsSub lc "video omitted".toList

def apostrophe : Char := Char.ofNat 39

/-- Letters/digits of the regex classes `\p{L}`/`\p{N}` (modelled on the
    ASCII range, like `toLowerCase` below; all general theorems hold for an
    arbitrary classifier). -/
def isWordChar (c : Char) : Bool := c.isAlpha || c.isDigit

/-- Remove `https?:\/\/\S+` matches: at a match start (the scheme followed
    by at least one non-space) the greedy `\S+` runs to the next whitespace;
    elsewhere the character is kept and scanning advances one position. -/
def stripUrls : List Char → Bool → List Char
  | [], _ => []
  | c :: t, true =>
      if jsWhitespace c then c :: stripUrls t false else stripUrls t true
  | 'h' :: 't' :: 't' :: 'p' :: 's' :: ':' :: '/' :: '/' :: c :: r2, false =>
      if jsWhitespace c then
        'h' :: stripUrls ('t' :: 't' :: 'p' :: 's' :: ':' :: '/' :: '/' :: c :: r2) false
      else stripUrls (c :: r2) true
  | 'h' :: 't' :: 't' :: 'p' :: ':' :: '/' :: '/' :: c :: r2, false =>
      if jsWhitespace c then
        'h' :: stripUrls ('t' :: 't' :: 'p' :: ':' :: '/' :: '/' :: c :: r2) false
      else stripUrls (c :: r2) true
  | c :: t, false => c :: stripUrls t false

/-- `split(/\s+/)`: tokens separated by maximal whitespace runs, with an
    empty boundary token when the string starts or ends with whitespace. -/
def splitWsRuns : List Char → List Char → Bool → List String
  | [], cur, _ => [String.mk cur.reverse]
  | c :: t, cur, inSep =>
      if jsWhitespace c then
        if inSep then splitWsRuns t cur true
        else String.mk cur.reverse :: splitWsRuns t [] true
      else splitWsRuns t (c :: cur) false

/-- `word.replace(/^'+|'+$/g, '').replace(/'/g, '')`. -/
def cleanupWord (w : String) : String :=
  let l := w.toList
  let l1 := dropEndWhile (fun c => c == apostrophe)
    (l.dropWhile (fun c => c == apostrophe))
  String.mk (l1.filter (fun c => c != apostrophe))

/-- `extractWords`. -/
def extractWords (content : String) : List String :=
  let lowered := content.toList.map Char.toLower
  let noUrls := stripUrls lowered false
  let spaced := noUrls.map (fun c =>
    if isWordChar c || jsWhitespace c || c == apostrophe then c else ' ')
  let tokens := splitWsRuns spaced [] false
  (tokens.map cleanupWord).filter
    (fun w => w.length > 1 && !stopWords.contains w)

/-- Principal ranges of the Unicode Extended_Pictographic property (the
    table's completeness is irrelevant to every claim: the theorems below
    hold for an arbitrary classifier). -/
def isExtendedPictographic (c : Char) : Bool :=
  let v := c.val
  v == 0xa9 || v == 0xae || v == 0x203c || v == 0x2049 || v == 0x2122 ||
  v == 0x2139 || (0x2194 ≤ v && v ≤ 0x2199) || (0x21a9 ≤ v && v ≤ 0x21aa) ||
  (0x231a ≤ v && v ≤ 0x231b) || v == 0x2328 || v == 0x23cf ||
  (0x23e9 ≤ v && v ≤ 0x23f3) || (0x23f8 ≤ v && v ≤ 0x23fa) || v == 0x24c2 ||
  (0x25aa ≤ v && v ≤ 0x25ab) || v == 0x25b6 || v == 0x25c0 ||
  (0x25fb ≤ v && v ≤ 0x25fe) || (0x2600 ≤ v && v ≤ 0x27bf) ||
  (0x2934 ≤ v && v ≤ 0x2935) || (0x2b05 ≤ v && v ≤ 0x2b07) ||
  (0x2b1b ≤ v && v ≤ 0x2b1c) || v == 0x2b50 || v == 0x2b55 ||
  v == 0x3030 || v == 0x303d || v == 0x3297 || v == 0x3299 ||
  (0x1f000 ≤ v && v ≤ 0x1faff)

/-- `extractEmojis` (`content.match(/\p{Extended_Pictographic}/gu)`: one
    entry per matching code point). -/
def extractEmojis (content : String) : List Char :=
  content.toList.filter isExtendedPictographic

/-- Floor of a rational (numerator over positive denominator with
    E-division, which rounds toward −∞ for a positive divisor). -/
def ratFloor (x : ℚ) : Int := x.num / (x.den : Int)

/-- `round(value, 2)` (`Math.round(value * 100) / 100`; `Math.round` is
    floor(x + 1/2)). -/
def jsRound2 (x : ℚ) : ℚ := ((ratFloor (x * 100 + 1 / 2) : Int) : ℚ) / 100

/-- Options of `computeStatistics` (`undefined` = `none`). -/
structure StatsOptions where
  responseGapMinutes : Option ℚ
  overnightBufferMinutes : Option ℚ
  deriving DecidableEq, Repr

/-- `typeof responseGapMinutes === 'number' && responseGapMinutes > 0 ? … : null`. -/
def normBaseGap (o : StatsOptions) : Option ℚ :=
  match o.responseGapMinutes with
  | some v => if v > 0 then some v else none
  | none => none

/-- `typeof overnightBufferMinutes === 'number' && overnightBufferMinutes > 0 ? … : 0`. -/
def normBuffer (o : StatsOptions) : ℚ :=
  match o.overnightBufferMinutes with
  | some v => if v > 0 then v else 0
  | none => 0

/-- The claim-relevant fields of the statistics result. (The source also
    returns hour/day histograms, per-participant averages, busiest
    day/hour, streaks, longest-message records and first/last instants;
    none of the claims below touch those fields, and they are fed by
    accumulators disjoint from the ones modelled here.) -/
structure Stats where
  totalMessages : Nat
  totalWords : Nat
  participants : List String
  messageCountByParticipant : List (String × Nat)
  wordCountByParticipant : List (String × Nat)
  mediaCount : Nat
  systemCount : Nat
  topWords : List (String × Nat)
  topEmojis : List (Char × Nat)
  responseTimes : List (String × ℚ)
  responseGapMinutes : Option ℚ
  responseGapOvernightBufferMinutes : ℚ
  deriving DecidableEq, Repr

/-- The mutable accumulators of the aggregation loop. -/
structure StatsAcc where
  participantsSet : List String
  messageCountByParticipant : List (String × Nat)
  wordCountByParticipant : List (String × Nat)
  totalMessages : Nat
  totalWords : Nat
  mediaCount : Nat
  systemCount : Nat
  words : List String
  emojiCounts : List (Char × Nat)
  responseTracking : List (String × List ℚ)
  previousMessage : Option Msg
  deriving Repr

def initialAcc : StatsAcc :=
  { participantsSet := [], messageCountByParticipant := [],
    wordCountByParticipant := [], totalMessages := 0, totalWords := 0,
    mediaCount := 0, systemCount := 0, words := [], emojiCounts := [],
    responseTracking := [], previousMessage := none }

/-- The response gap in minutes:
    `(message.timestamp - previousMessage.timestamp) / 60000`. -/
def gapDelta (prev message : Msg) : ℚ :=
  ((message.timestamp - prev.timestamp : Int) : ℚ) / 60000

/-- `message.timestamp.toDateString() !== previousMessage.timestamp.toDateString()`:
    the two instants fall on different local calendar days. -/
def crossesOvernightB (prev message : Msg) : Bool :=
  decide (jsDay message.timestamp ≠ jsDay prev.timestamp)

/-- The `allowance` of lines 403–405: no cutoff → `null`; otherwise the
    cutoff plus the overnight buffer when the gap crosses a calendar-day
    boundary. -/
def gapAllowance (baseGap : Option ℚ) (buffer : ℚ) (prev message : Msg) :
    Option ℚ :=
  match baseGap with
  | none => none
  | some g => some (g + (if crossesOvernightB prev message then buffer else 0))

/-- Whether the gap is recorded (line 411):
    `allowance === null || delta <= allowance`. -/
def gapQualifies (baseGap : Option ℚ) (buffer : ℚ) (prev message : Msg) :
    Bool :=
  match gapAllowance baseGap buffer prev message with
  | none => true
  | some a => decide (gapDelta prev message ≤ a)

/-- One iteration of the `for (const message of sortedMessages)` loop
    (chatParser.js lines 332–417), restricted to the modelled
    accumulators. -/
def statsStep (baseGap : Option ℚ) (buffer : ℚ) (acc : StatsAcc)
    (message : Msg) : StatsAcc :=
  if message.type = .system then
    { acc with
      systemCount := acc.systemCount + 1,
      previousMessage := some message }
  else
    let author := message.author
    let acc1 := { acc with
      participantsSet :=
        if acc.participantsSet.contains author then acc.participantsSet
        else acc.participantsSet ++ [author],
      messageCountByParticipant := alistSet acc.messageCountByParticipant
        author (((alistGet acc.messageCountByParticipant author).getD 0) + 1),
      wordCountByParticipant :=
        if (alistGet acc.wordCountByParticipant author).isSome then
          acc.wordCountByParticipant
        else alistSet acc.wordCountByParticipant author 0,
      totalMessages := acc.totalMessages + 1 }
    let content := message.content
    let mediaMessage := isMediaMessage content
    let acc2 :=
      if mediaMessage then { acc1 with mediaCount := acc1.mediaCount + 1 }
      else
        let wordList := extractWords content
        let emojis := extractEmojis message.content
        { acc1 with
          wordCountByParticipant := alistSet acc1.wordCountByParticipant
            author
            (((alistGet acc1.wordCountByParticipant author).getD 0) +
              wordList.length),
          totalWords := acc1.totalWords + wordList.length,
          words := acc1.words ++ wordList,
          emojiCounts := emojis.foldl
            (fun m e => alistSet m e (((alistGet m e).getD 0) + 1))
            acc1.emojiCounts }
    let acc3 :=
      match acc.previousMessage with
      | some prev =>
          if prev.type = MsgKind.message ∧ prev.author ≠ author then
            let tr0 :=
              if (alistGet acc2.responseTracking author).isSome then
                acc2.responseTracking
              else alistSet acc2.responseTracking author []
            if gapQualifies baseGap buffer prev message then
              { acc2 with
                responseTracking := alistSet tr0 author
                  (((alistGet tr0 author).getD []) ++ [gapDelta prev message]) }
            else { acc2 with responseTracking := tr0 }
          else acc2
      | none => acc2
    { acc3 with previousMessage := some message }

/-- Sorting key of `sortedMessages` (`(a, b) => a.timestamp - b.timestamp`). -/
def msgTs (m : Msg) : Int := m.timestamp

/-- The defensive sorted copy `[...messages].sort((a, b) => a.timestamp - b.timestamp)`. -/
def sortedCopy (messages : List Msg) : List Msg := sortByKey msgTs messages

/-- The full aggregation loop over the sorted sequence. -/
def statsFold (baseGap : Option ℚ) (buffer : ℚ) (sorted : List Msg) :
    StatsAcc :=
  sorted.foldl (statsStep baseGap buffer) initialAcc

/-- The per-author qualifying response gaps recorded for `messages` under
    the given options (`responseTracking` after the loop). -/
def responseTrackingOf (messages : List Msg) (options : StatsOptions) :
    List (String × List ℚ) :=
  (statsFold (normBaseGap options) (normBuffer options)
    (sortedCopy messages)).responseTracking

/-- The occurrence sequence of counted words (the `words` array feeding the
    global frequency table). -/
def wordOccurrences (messages : List Msg) : List String :=
  (statsFold none 0 (sortedCopy messages)).words

/-- The emoji frequency `Map` after the loop. -/
def emojiCountsOf (messages : List Msg) : List (Char × Nat) :=
  (statsFold none 0 (sortedCopy messages)).emojiCounts

/-- Global word frequency table (`words.reduce(...)` as a JS object). -/
def wordFreqOf (acc : StatsAcc) : List (String × Nat) :=
  acc.words.foldl (fun m w => alistSet m w (((alistGet m w).getD 0) + 1)) []

/-- Frequency-descending ranking (`.sort((a, b) => b[1] - a[1])`, sorting
    stably on the negated count). -/
def rankDescWords (entries : List (String × Nat)) : List (String × Nat) :=
  sortByKey (fun e => -(e.2 : Int)) entries

def rankDescEmojis (entries : List (Char × Nat)) : List (Char × Nat) :=
  sortByKey (fun e => -(e.2 : Int)) entries

/-- The early-return shape for `!messages.length` (claim-relevant fields). -/
def emptyStats (options : StatsOptions) : Stats :=
  let baseResponseGap := normBaseGap options
  let overnightBuffer := normBuffer options
  { totalMessages := 0, totalWords := 0, participants := [],
    messageCountByParticipant := [], wordCountByParticipant := [],
    mediaCount := 0, systemCount := 0, topWords := [], topEmojis := [],
    responseTimes := [],
    responseGapMinutes := baseResponseGap,
    responseGapOvernightBufferMinutes :=
      if baseResponseGap.isSome then overnightBuffer else 0 }

/-- Everything `computeStatistics` does after building `sortedMessages`. -/
def statsFromSorted (sorted : List Msg) (options : StatsOptions) : Stats :=
  let baseResponseGap := normBaseGap options
  let overnightBuffer := normBuffer options
  let acc := statsFold baseResponseGap overnightBuffer sorted
  let participants := sortByKey
      (fun a => -(((alistGet acc.messageCountByParticipant a).getD 0 : Int)))
      acc.participantsSet
    let responseTimes := (jsEntries acc.responseTracking).foldl
      (fun rt e =>
        if e.2.length ≠ 0 then
          alistSet rt e.1 (jsRound2 (e.2.sum / (e.2.length : ℚ)))
        else rt) []
    let topWords := (rankDescWords (jsEntries (wordFreqOf acc))).take 15
    let topEmojis := (rankDescEmojis acc.emojiCounts).take 10
    { totalMessages := acc.totalMessages, totalWords := acc.totalWords,
      participants := participants,
      messageCountByParticipant := acc.messageCountByParticipant,
      wordCountByParticipant := acc.wordCountByParticipant,
      mediaCount := acc.mediaCount, systemCount := acc.systemCount,
      topWords := topWords, topEmojis := topEmojis,
      responseTimes := responseTimes,
      responseGapMinutes := baseResponseGap,
      responseGapOvernightBufferMinutes :=
        if baseResponseGap.isSome then overnightBuffer else 0 }

/-- `computeStatistics(messages, options)` (claim-relevant fields). -/
def computeStatistics (messages : List Msg) (options : StatsOptions) :
    Stats :=
  if messages.isEmpty then emptyStats options
  else statsFromSorted (sortedCopy messages) options

/-! ### Date-Range Filter (`parseDateInput`, `filterMessagesByDate`) -/

/-- Split on a literal separator character (`String.prototype.split('-')`). -/
def splitOnChar (sep : Char) : List Char → List Char → List (List Char)
  | [], cur => [cur.reverse]
  | c :: t, cur =>
      if c == sep then cur.reverse :: splitOnChar sep t []
      else splitOnChar sep t (c :: cur)

/-- `parseInt(s, 10)`: skip leading whitespace, optional sign, leading
    digit run; no digits → NaN (`none`). -/
def jsParseInt (l : List Char) : Option Int :=
  let digits := fun (r : List Char) =>
    let ds := r.takeWhile Char.isDigit
    if ds.isEmpty then none else some (digitsVal ds : Int)
  let l1 := l.dropWhile jsWhitespace
  match l1 with
  | '-' :: r => (digits r).map (fun n => -n)
  | '+' :: r => digits r
  | _ => digits l1

/-- The `[year, month, day]` destructuring of
    `value.split('-').map(parseInt)` with its NaN checks. -/
def parseDateTriple (value : String) : Option (Int × Int × Int) :=
  match (splitOnChar '-' value.toList []).map jsParseInt with
  | some y :: some m :: some d :: _ => some (y, m, d)
  | _ => none

/-- `parseDateInput`: falsy → null, NaN parts → null, else
    `new Date(year, month - 1, day)`. -/
def parseDateInput (value : Option String) : Option Int :=
  match value with
  | none => none
  | some s =>
      if s = "" then none
      else match parseDateTriple s with
        | some (y, m, d) => some (jsDateMs y (m - 1) d 0 0 0)
        | none => none

/-- `endOfDay`: copy of the end instant with local time set to
    23:59:59.999 (`setHours(23, 59, 59, 999)` recomputes from the local
    day the instant falls on). -/
def endOfDayMs (endMs : Int) : Int := jsDay endMs * 86400000 + 86399999

/-- `filterMessagesByDate(messages, startDate, endDate)`. -/
def filterMessagesByDate (messages : List Msg)
    (startDate endDate : Option String) : List Msg :=
  let startFalsy := match startDate with | none => true | some s => s = ""
  let endFalsy := match endDate with | none => true | some s => s = ""
  if startFalsy && endFalsy then messages
  else
    let start := parseDateInput startDate
    let endv := parseDateInput endDate
    messages.filter (fun message =>
      let ts := message.timestamp
      let startOk := match start with
        | some s => !decide (ts < s)
        | none => true
      let endOk := match endv with
        | some e => !decide (ts > endOfDayMs e)
        | none => true
      startOk && endOk)

/-! ### Array-mutation frame model

JS arrays are heap objects and `Array.prototype.sort` mutates its receiver
in place. To settle the frame claim, the two public operations are
re-expressed over an explicit heap of message arrays: the caller's array
is passed as a heap index, `[...xs]` allocates a fresh array, `.sort`
destructively overwrites the contents at the receiver's index, and
`.filter` allocates its result. (Had the source called `messages.sort`
directly, the embedding would overwrite the caller's index.) Neither
function contains a property write to a message record, so there is no
record mutation to model. -/

abbrev Heap := List (List Msg)

/-- Read the array stored at index `i`. -/
def heapGet (h : Heap) (i : Nat) : List Msg := h.getD i []

/-- Allocate a fresh array (`[...xs]`, `filter` results). -/
def heapAlloc (h : Heap) (xs : List Msg) : Heap × Nat := (h ++ [xs], h.length)

/-- `arr.sort((a, b) => a.timestamp - b.timestamp)`: in-place overwrite of
    the receiver. -/
def heapSortAt (h : Heap) (i : Nat) : Heap :=
  List.set h i (sortByKey msgTs (heapGet h i))

/-- `computeStatistics` with the caller's array passed by reference:
    line 328's `const sortedMessages = [...messages].sort(...)` is
    spread-allocation followed by an in-place sort of the fresh array. -/
def computeStatisticsH (h : Heap) (i : Nat) (options : StatsOptions) :
    Stats × Heap :=
  if (heapGet h i).isEmpty then (emptyStats options, h)
  else
    let p := heapAlloc h (heapGet h i)
    let h2 := heapSortAt p.1 p.2
    (statsFromSorted (heapGet h2 p.2) options, h2)

/-- `filterMessagesByDate` with the caller's array passed by reference:
    both `[...messages]` (line 547) and the `filter` result are fresh
    allocations; the returned index is the result array. -/
def filterMessagesByDateH (h : Heap) (i : Nat)
    (startDate endDate : Option String) : Nat × Heap :=
  let p := heapAlloc h (filterMessagesByDate (heapGet h i) startDate endDate)
  (p.2, p.1)

/-! ### Generic helper lemmas -/

theorem list_getD_cons_succ (a : α) (t : List α) (n : Nat) (d : α) :
    (a :: t).getD (n + 1) d = t.getD n d := rfl

theorem list_getD_append_lt (l l2 : List α) (i : Nat) (d : α)
    (h : i < l.length) : (l ++ l2).getD i d = l.getD i d := by
  induction l generalizing i with
  | nil => simp at h
  | cons a t ih =>
      cases i with
      | zero => rfl
      | succ n =>
          rw [List.cons_append, list_getD_cons_succ, list_getD_cons_succ]
          exact ih n (by simpa using h)

theorem list_getD_ge (l : List α) (i : Nat) (d : α) (h : l.length ≤ i) :
    l.getD i d = d := by
  induction l generalizing i with
  | nil => cases i <;> rfl
  | cons a t ih =>
      cases i with
      | zero => simp at h
      | succ n => rw [list_getD_cons_succ]; exact ih n (by simpa using h)

theorem list_getD_append_self (l : List α) (x d : α) :
    (l ++ [x]).getD l.length d = x := by
  induction l with
  | nil => rfl
  | cons a t ih => simpa using ih

theorem list_getD_set_ne (l : List α) (j i : Nat) (x d : α) (h : i ≠ j) :
    (l.set j x).getD i d = l.getD i d := by
  induction l generalizing i j with
  | nil => rfl
  | cons a t ih =>
      cases j with
      | zero =>
          cases i with
          | zero => omega
          | succ n => rfl
      | succ jm =>
          cases i with
          | zero => rfl
          | succ n =>
              rw [List.set_cons_succ, list_getD_cons_succ, list_getD_cons_succ]
              exact ih jm n (by omega)

theorem list_getD_set_self (l : List α) (j : Nat) (x d : α)
    (h : j < l.length) : (l.set j x).getD j d = x := by
  induction l generalizing j with
  | nil => simp at h
  | cons a t ih =>
      cases j with
      | zero => rfl
      | succ n =>
          rw [List.set_cons_succ, list_getD_cons_succ]
          exact ih n (by simpa using h)

theorem heapGet_ne_nil_lt (h : Heap) (i : Nat) (hne : heapGet h i ≠ []) :
    i < h.length := by
  by_contra hcon
  exact hne (list_getD_ge h i [] (by omega))

theorem alistGet_set [BEq K] [LawfulBEq K] (m : List (K × V)) (k k2 : K)
    (v : V) :
    alistGet (alistSet m k v) k2 =
      if k2 == k then some v else alistGet m k2 := by
  induction m with
  | nil =>
      by_cases h : k2 = k
      · subst h; simp [alistGet, alistSet]
      · have hb : (k == k2) = false := beq_eq_false_iff_ne.mpr (Ne.symm h)
        have hb2 : (k2 == k) = false := beq_eq_false_iff_ne.mpr h
        simp [alistGet, alistSet, hb, hb2]
  | cons e t ih =>
      by_cases hek : e.1 = k
      · by_cases h : k2 = k
        · subst h
          simp [alistSet, alistGet, hek]
        · have h2 : (k == k2) = false := beq_eq_false_iff_ne.mpr (Ne.symm h)
          have h3 : (e.1 == k2) = false :=
            beq_eq_false_iff_ne.mpr (by rw [hek]; exact Ne.symm h)
          have h4 : (k2 == k) = false := beq_eq_false_iff_ne.mpr h
          simp [alistSet, alistGet, hek, h2, h3, h4]
      · have hekb : (e.1 == k) = false := beq_eq_false_iff_ne.mpr hek
        by_cases h : k2 = k
        · subst h
          have h3 : (e.1 == k2) = false := beq_eq_false_iff_ne.mpr hek
          simp [alistSet, alistGet, hekb, h3, ih]
        · have h4 : (k2 == k) = false := beq_eq_false_iff_ne.mpr h
          simp [alistSet, alistGet, hekb, ih, h4]

/-! ### Claim theorems -/

/-- C10: for empty or absent raw text, `parseChat` returns (without error)
    a result with no messages, `ambiguous = false`, no candidates, the
    caller's override as `dateFormat` when supplied (day-first default
    otherwise), and `usedOverride` set exactly when an override was
    supplied. -/
theorem parseChat_empty_raw_text (raw : Option String) (opts : ParseOptions)
    (h : raw = none ∨ raw = some "") :
    parseChat raw opts =
      { messages := [], dateFormat := opts.dateFormat.getD Format.DMY,
        ambiguous := false, candidates := [],
        usedOverride := opts.dateFormat.isSome } := by
  rcases h with h | h <;> subst h <;> simp [parseChat]

theorem parseChat_empty_raw_text_witness :
    ((some "" : Option String) = none ∨ (some "" : Option String) = some "") ∧
    parseChat (some "") { dateFormat := some Format.MDY } =
      { messages := [], dateFormat := Format.MDY, ambiguous := false,
        candidates := [], usedOverride := true } :=
  ⟨Or.inr rfl,
    parseChat_empty_raw_text (some "") { dateFormat := some Format.MDY }
      (Or.inr rfl)⟩

theorem filterMessagesByDate_nil (startDate endDate : Option String) :
    filterMessagesByDate [] startDate endDate = [] := by
  by_cases h1 : (match startDate with | none => true | some s => decide (s = "")) &&
      (match endDate with | none => true | some s => decide (s = "")) = true <;>
    simp_all [filterMessagesByDate]

/-- C9: neither `computeStatistics` nor `filterMessagesByDate` mutates the
    message array it is given: with the caller's array held in an explicit
    array heap (where `Array.prototype.sort` overwrites its receiver in
    place), the contents at the input's index are unchanged after either
    call, the sort having been applied to the spread copy of line 328 /
    line 547; the heap-threaded results agree with the pure functions. -/
theorem core_does_not_mutate_input (h : Heap) (i : Nat)
    (options : StatsOptions) (startDate endDate : Option String) :
    heapGet (computeStatisticsH h i options).2 i = heapGet h i ∧
    (computeStatisticsH h i options).1 =
      computeStatistics (heapGet h i) options ∧
    heapGet (filterMessagesByDateH h i startDate endDate).2 i = heapGet h i ∧
    heapGet (filterMessagesByDateH h i startDate endDate).2
        (filterMessagesByDateH h i startDate endDate).1 =
      filterMessagesByDate (heapGet h i) startDate endDate := by
  have sortAlloc : ∀ (hp : Heap) (xs : List Msg),
      heapGet (heapSortAt (hp ++ [xs]) hp.length) hp.length =
        sortByKey msgTs xs := by
    intro hp xs
    unfold heapSortAt heapGet
    rw [list_getD_append_self]
    exact list_getD_set_self _ _ _ _ (by simp)
  have sortAllocFrame : ∀ (hp : Heap) (xs : List Msg) (j : Nat),
      j < hp.length →
      heapGet (heapSortAt (hp ++ [xs]) hp.length) j = heapGet hp j := by
    intro hp xs j hj
    unfold heapSortAt heapGet
    rw [list_getD_set_ne _ _ _ _ _ (by omega)]
    exact list_getD_append_lt _ _ _ _ hj
  refine ⟨?_, ?_, ?_, ?_⟩
  · by_cases hemp : (heapGet h i).isEmpty
    · simp [computeStatisticsH, hemp]
    · have hne : heapGet h i ≠ [] := by
        simpa [List.isEmpty_iff] using hemp
      have hlt : i < h.length := heapGet_ne_nil_lt h i hne
      simp only [computeStatisticsH, hemp, Bool.false_eq_true, if_false,
        heapAlloc]
      exact sortAllocFrame h (heapGet h i) i hlt
  · by_cases hemp : (heapGet h i).isEmpty
    · have hnil : heapGet h i = [] := by simpa [List.isEmpty_iff] using hemp
      simp [computeStatisticsH, hemp, computeStatistics, hnil]
    · simp only [computeStatisticsH, hemp, Bool.false_eq_true, if_false,
        heapAlloc, computeStatistics]
      rw [sortAlloc h (heapGet h i)]
      rfl
  · by_cases hcmp : i < h.length
    · simp only [filterMessagesByDateH, heapAlloc, heapGet]
      rw [list_getD_append_lt _ _ _ _ hcmp]
    · by_cases heq : i = h.length
      · subst heq
        simp only [filterMessagesByDateH, heapAlloc, heapGet]
        rw [list_getD_append_self, list_getD_ge h _ _ (by omega),
          filterMessagesByDate_nil]
      · simp only [filterMessagesByDateH, heapAlloc, heapGet]
        rw [list_getD_ge _ _ _ (by simp; omega), list_getD_ge h _ _ (by omega)]
  · simp only [filterMessagesByDateH, heapAlloc, heapGet]
    rw [list_getD_append_self]

/-- The concrete alternating exchange of the claim's scenario: A and B in a
    single day, each reply exactly 10 minutes after the previous message. -/
def c1Base : Int := jsDateMs 2024 0 1 9 0 0

def c1Messages : List Msg :=
  [{ timestamp := c1Base, author := "A", content := "hi",
     type := .message },
   { timestamp := c1Base + 600000, author := "B", content := "yo",
     type := .message },
   { timestamp := c1Base + 1200000, author := "A", content := "ok",
     type := .message },
   { timestamp := c1Base + 1800000, author := "B", content := "fine",
     type := .message }]

def c1Options : StatsOptions :=
  { responseGapMinutes := none, overnightBufferMinutes := none }

unseal Rat.add Rat.mul Rat.sub Rat.inv in
/-- C1 (code evidence): on the claim's exchange the statistics result maps
    each responder to the plain rounded average gap — `responseTimes.B` is
    the number 10, not an object carrying `averageMinutes`, `medianMinutes`
    and `samples`, and the result carries no overall average/median of the
    gaps (no such computation exists in `computeStatistics`). -/
theorem c1_responseTimes_is_scalar_average :
    (computeStatistics c1Messages c1Options).responseTimes =
      [("B", (10 : ℚ)), ("A", (10 : ℚ))] := by
  decide

/-- The per-record invariant of the assembler output: trim-stable content,
    and the sentinel author on system records. -/
def recordInvariant (m : Msg) : Prop :=
  jsTrim m.content = m.content ∧
    (m.type = MsgKind.system → m.author = "System")

theorem buildRecord_invariant (ts : Int) (rest : String) :
    (buildRecord ts rest).type = MsgKind.system →
      (buildRecord ts rest).author = "System" := by
  unfold buildRecord
  cases h : splitColonWs rest.toList [] with
  | nil => intro _; rfl
  | cons a t =>
      cases t with
      | nil => intro _; rfl
      | cons b t2 => intro hk; simp at hk

theorem flushCurrent_invariant (st : List Msg × Option Msg)
    (hmsgs : ∀ m ∈ st.1, recordInvariant m)
    (hcur : ∀ cur, st.2 = some cur →
      (cur.type = MsgKind.system → cur.author = "System")) :
    ∀ m ∈ flushCurrent st, recordInvariant m := by
  unfold flushCurrent
  cases hc : st.2 with
  | none => exact hmsgs
  | some cur =>
      intro m hm
      rcases List.mem_append.mp hm with hm | hm
      · exact hmsgs m hm
      · rcases List.mem_singleton.mp hm with rfl
        exact ⟨jsTrim_idem cur.content, hcur cur hc⟩

theorem asmFold_invariant (format : Format) (lines : List String)
    (st : List Msg × Option Msg)
    (hmsgs : ∀ m ∈ st.1, recordInvariant m)
    (hcur : ∀ cur, st.2 = some cur →
      (cur.type = MsgKind.system → cur.author = "System")) :
    (∀ m ∈ (lines.foldl (asmStep format) st).1, recordInvariant m) ∧
    (∀ cur, (lines.foldl (asmStep format) st).2 = some cur →
      (cur.type = MsgKind.system → cur.author = "System")) := by
  induction lines generalizing st with
  | nil => exact ⟨hmsgs, hcur⟩
  | cons line rest ih =>
      rw [List.foldl_cons]
      apply ih
      · unfold asmStep
        cases hh : matchMessageHeader line with
        | some hd => exact flushCurrent_invariant st hmsgs hcur
        | none =>
            cases hc : st.2 with
            | none => exact hmsgs
            | some cur => exact hmsgs
      · unfold asmStep
        cases hh : matchMessageHeader line with
        | some hd =>
            intro cur hcur2
            cases hcur2
            exact buildRecord_invariant _ _
        | none =>
            cases hc : st.2 with
            | none => exact hcur
            | some cur =>
                intro cur2 hcur2
                cases hcur2
                intro hk
                exact hcur cur hc hk

/-- C3 (amended): every record returned by `parseChat` has a non-NaN
    timestamp (invalid ones are dropped by the final filter), trim-stable
    content, and the sentinel author 'System' on every system record; a
    message record's author is the quote-stripped trimmed author token and
    can be the empty string (so not always non-empty, see the
    counterexample). -/
theorem parseChat_record_invariants (raw : Option String)
    (opts : ParseOptions) :
    ∀ msg ∈ (parseChat raw opts).messages,
      timestampIsNaN msg.timestamp = false ∧
      jsTrim msg.content = msg.content ∧
      (msg.type = MsgKind.system → msg.author = "System") := by
  intro msg hmem
  simp only [parseChat] at hmem
  split at hmem
  · simp at hmem
  · simp only [List.mem_filter, Bool.not_eq_eq_eq_not, Bool.not_true] at hmem
    rcases hmem with ⟨hmem, hnan⟩
    obtain ⟨h1, h2⟩ := asmFold_invariant _ _ ([], none) (by simp)
      (by intro cur h; cases h)
    have hinv := flushCurrent_invariant _ h1 h2 msg hmem
    exact ⟨by simpa using hnan, hinv.1, hinv.2⟩

unseal Rat.add Rat.mul Rat.sub Rat.inv in
theorem parseChat_record_invariants_witness :
    timestampIsNaN
        (jsDateMs 2023 1 1 9 5 0) = false ∧
      jsTrim "Hello" = "Hello" ∧
      ((MsgKind.message : MsgKind) = MsgKind.system → "Alice" = "System") := by
  have h := parseChat_record_invariants
    (some "[1/2/23, 9:05 AM] Alice: Hello") { dateFormat := none }
    { timestamp := jsDateMs 2023 1 1 9 5 0, author := "Alice",
      content := "Hello", type := MsgKind.message }
    (by decide)
  exact h

/-- C3 (counterexample to the claim as stated): for the raw line
    `[1/2/23, 9:05] " ": hi` — whose author token consists of quotes and a
    space — the surviving record's author is the empty string, not a
    non-empty string and not the sentinel. -/
theorem parseChat_empty_author_counterexample :
    (parseChat (some "[1/2/23, 9:05] \" \": hi")
        { dateFormat := none }).messages.map Msg.author = [""] := by
  decide

/-- Does the character list contain a colon immediately followed by a `\s`
    character (a match of the split regex `/:\s/`)? -/
def hasColonWs : List Char → Bool
  | c1 :: c2 :: rest => (c1 == ':' && jsWhitespace c2) || hasColonWs (c2 :: rest)
  | _ => false

theorem splitColonWs_no_match (l cur : List Char)
    (h : hasColonWs l = false) :
    splitColonWs l cur = [String.mk (cur.reverse ++ l)] := by
  induction l generalizing cur with
  | nil => simp [splitColonWs]
  | cons c t ih =>
      cases t with
      | nil => simp [splitColonWs]
      | cons c2 t2 =>
          unfold hasColonWs at h
          rcases Bool.or_eq_false_iff.mp h with ⟨hpair, hrest⟩
          unfold splitColonWs
          rw [if_neg (by simp [hpair])]
          rw [ih (c :: cur) hrest]
          simp

theorem splitColonWs_ne_nil (l cur : List Char) :
    splitColonWs l cur ≠ [] := by
  induction l generalizing cur with
  | nil => simp [splitColonWs]
  | cons c t ih =>
      cases t with
      | nil => simp [splitColonWs]
      | cons c2 t2 =>
          unfold splitColonWs
          by_cases hc : (c == ':' && jsWhitespace c2) = true

          · simp [hc]
          · rw [if_neg (by simpa using hc)]
            exact ih (c :: cur)

theorem splitColonWs_cons2 (c1 c2 : Char) (rest cur : List Char) :
    splitColonWs (c1 :: c2 :: rest) cur =
      if c1 == ':' && jsWhitespace c2 then
        String.mk cur.reverse :: splitColonWs rest []
      else splitColonWs (c2 :: rest) (c1 :: cur) := rfl

theorem splitColonWs_first_match (pre : List Char) (w : Char)
    (suf : List Char) (cur : List Char) (hpre : hasColonWs pre = false)
    (hw : jsWhitespace w = true) :
    splitColonWs (pre ++ ':' :: w :: suf) cur =
      String.mk (cur.reverse ++ pre) :: splitColonWs suf [] := by
  induction pre generalizing cur with
  | nil =>
      simp only [List.nil_append]
      rw [splitColonWs_cons2, if_pos (by simp [hw])]
      simp only [List.append_nil]
  | cons p pre2 ih =>
      cases pre2 with
      | nil =>
          simp only [List.cons_append, List.nil_append]
          rw [splitColonWs_cons2,
            if_neg (by simp [show jsWhitespace ':' = false by decide])]
          have hstep := ih (p :: cur) (by rfl)
          simp only [List.nil_append] at hstep
          rw [hstep]
          simp only [List.reverse_cons, List.append_assoc, List.nil_append,
            List.append_nil, List.singleton_append]
      | cons q pre3 =>
          unfold hasColonWs at hpre
          rcases Bool.or_eq_false_iff.mp hpre with ⟨hpair, hrest⟩
          simp only [List.cons_append]
          rw [splitColonWs_cons2, if_neg (by simp [hpair])]
          have hstep := ih (p :: cur) hrest
          simp only [List.cons_append] at hstep
          rw [hstep]
          simp only [List.reverse_cons, List.append_assoc,
            List.singleton_append]

/-- C4 (amended): the assembler splits the header remainder at the first
    colon followed by any single `\s` character (the split regex is `/:\s/`,
    not the two-character string ": "): when no such pair occurs the record
    is a system record carrying the trimmed remainder; at the first such
    pair the left part (quote-stripped, trimmed) becomes the author,
    `kind = message`, and the content is the remaining split segments
    rejoined with ": " and trimmed — equal to the raw text right of the
    separator only when that text contains no further colon-whitespace
    pair. -/
theorem buildRecord_splits_on_colon_whitespace (ts : Int)
    (rest pre suf : List Char) (w : Char) :
    (hasColonWs rest = false →
      buildRecord ts (String.mk rest) =
        { timestamp := ts, author := "System",
          content := jsTrim (String.mk rest), type := MsgKind.system }) ∧
    (rest = pre ++ ':' :: w :: suf → jsWhitespace w = true →
      hasColonWs pre = false →
      buildRecord ts (String.mk rest) =
        { timestamp := ts, author := normaliseAuthor (String.mk pre),
          content := jsTrim (String.intercalate ": " (splitColonWs suf [])),
          type := MsgKind.message }) ∧
    (hasColonWs suf = false →
      String.intercalate ": " (splitColonWs suf []) = String.mk suf) := by
  refine ⟨?_, ?_, ?_⟩
  · intro h
    unfold buildRecord
    rw [show (String.mk rest).toList = rest from rfl,
      splitColonWs_no_match rest [] h]
  · intro hrest hw hpre
    subst hrest
    unfold buildRecord
    rw [show (String.mk (pre ++ ':' :: w :: suf)).toList =
      pre ++ ':' :: w :: suf from rfl,
      splitColonWs_first_match pre w suf [] hpre hw]
    cases hsuf : splitColonWs suf [] with
    | nil => exact absurd hsuf (splitColonWs_ne_nil suf [])
    | cons b t => simp
  · intro h
    rw [splitColonWs_no_match suf [] h]
    rfl

theorem buildRecord_splits_witness :
    buildRecord 5 (String.mk ("Alice: Hello".toList)) =
      { timestamp := 5,
        author := normaliseAuthor (String.mk "Alice".toList),
        content :=
          jsTrim (String.intercalate ": " (splitColonWs "Hello".toList [])),
        type := MsgKind.message } :=
  (buildRecord_splits_on_colon_whitespace 5 "Alice: Hello".toList
      "Alice".toList "Hello".toList ' ').2.1 (by decide) (by decide)
    (by decide)

/-- C4 (counterexample to the claim as stated): the header remainder
    `Note:\tb:\tc` contains no ": " occurrence, so the claim demands a
    system record with the full remainder as content; the code instead
    splits at the colon-tab pairs, producing a message record with author
    "Note" and content "b: c" (the tab normalised to a space by the
    rejoin). -/
theorem splitColonWs_counterexample :
    listContainsSub "Note:\tb:\tc".toList ": ".toList = false ∧
    (parseChat (some "[1/2/23, 9:05] Note:\tb:\tc")
        { dateFormat := none }).messages =
      [{ timestamp := jsDateMs 2023 1 1 9 5 0, author := "Note",
         content := "b: c", type := MsgKind.message }] := by
  exact ⟨by decide, by decide⟩

theorem bool_not_lt (a b : Int) : (!decide (b < a)) = decide (a ≤ b) := by
  by_cases h : b < a
  · simp [h, show ¬a ≤ b by omega]
  · simp [h, show a ≤ b by omega]

theorem bool_not_gt (a b : Int) : (!decide (a > b)) = decide (a ≤ b) := by
  by_cases h : a > b
  · simp [h, show ¬a ≤ b by omega]
  · simp [h, show a ≤ b by omega]

theorem parseDateInput_none : parseDateInput none = none := rfl

theorem parseDateInput_aligned (v : Option String) (D : Int)
    (h : parseDateInput v = some D) : ∃ K : Int, D = K * 86400000 := by
  cases v with
  | none => simp [parseDateInput] at h
  | some s =>
      by_cases hs : s = ""
      · subst hs; simp [parseDateInput] at h
      · simp only [parseDateInput, if_neg hs] at h
        cases hp : parseDateTriple s with
        | none => rw [hp] at h; simp at h
        | some t =>
            obtain ⟨y, m, d⟩ := t
            rw [hp] at h
            simp only [Option.some.injEq] at h
            refine ⟨daysFromCivil (y + (m - 1) / 12) ((m - 1) % 12 + 1) 1 +
              (d - 1), ?_⟩
            rw [← h]
            unfold jsDateMs
            ring

theorem jsDay_window (D ts K : Int) (hD : D = K * 86400000) :
    jsDay ts = jsDay D ↔ D ≤ ts ∧ ts ≤ endOfDayMs D := by
  subst hD
  simp only [jsDay, endOfDayMs]
  omega

/-- C5: `filterMessagesByDate` keeps exactly the messages whose timestamp
    lies in the inclusive interval from the start day's local 00:00:00 to
    the end day's local 23:59:59.999; an absent bound leaves that side
    open, absent both bounds returns a (shallow copy of) the input
    unchanged, and with both bounds equal to one YYYY-MM-DD date a message
    is kept iff its local calendar day (`jsDay`) equals that date's. -/
theorem filterMessagesByDate_spec (msgs : List Msg)
    (sd ed : Option String) :
    (filterMessagesByDate msgs none none = msgs) ∧
    (∀ S E : Int, parseDateInput sd = some S → parseDateInput ed = some E →
      filterMessagesByDate msgs sd ed =
        msgs.filter (fun m =>
          decide (S ≤ m.timestamp) &&
            decide (m.timestamp ≤ endOfDayMs E))) ∧
    (∀ S : Int, parseDateInput sd = some S → ed = none →
      filterMessagesByDate msgs sd ed =
        msgs.filter (fun m => decide (S ≤ m.timestamp))) ∧
    (∀ E : Int, sd = none → parseDateInput ed = some E →
      filterMessagesByDate msgs sd ed =
        msgs.filter (fun m => decide (m.timestamp ≤ endOfDayMs E))) ∧
    (∀ (s : String) (D : Int), parseDateInput (some s) = some D →
      filterMessagesByDate msgs (some s) (some s) =
        msgs.filter (fun m => decide (jsDay m.timestamp = jsDay D))) := by
  have hsome : ∀ (v : Option String) (X : Int), parseDateInput v = some X →
      ∃ s1 : String, v = some s1 ∧ s1 ≠ "" := by
    intro v X hv
    cases v with
    | none => cases hv
    | some s1 =>
        refine ⟨s1, rfl, ?_⟩
        intro hh
        rw [hh] at hv
        simp [parseDateInput] at hv
  refine ⟨by simp [filterMessagesByDate], ?_, ?_, ?_, ?_⟩
  · intro S E hS hE
    obtain ⟨s1, rfl, hs1⟩ := hsome sd S hS
    obtain ⟨s2, rfl, hs2⟩ := hsome ed E hE
    simp only [filterMessagesByDate, hs1, hS, hE, decide_eq_true_eq,
      if_false, Bool.false_and, decide_eq_false hs1]
    apply List.filter_congr
    intro m _
    rw [bool_not_lt S m.timestamp, bool_not_gt m.timestamp (endOfDayMs E)]
  · intro S hS hed
    subst hed
    obtain ⟨s1, rfl, hs1⟩ := hsome sd S hS
    simp only [filterMessagesByDate, hS, decide_eq_true_eq, if_false,
      Bool.false_and, decide_eq_false hs1, parseDateInput_none]
    apply List.filter_congr
    intro m _
    rw [bool_not_lt S m.timestamp, Bool.and_true]
  · intro E hsd hE
    subst hsd
    obtain ⟨s2, rfl, hs2⟩ := hsome ed E hE
    simp only [filterMessagesByDate, hE, decide_eq_true_eq,
      decide_eq_false hs2, Bool.and_false, if_false, parseDateInput_none,
      Bool.true_and]
    apply List.filter_congr
    intro m _
    rw [bool_not_gt m.timestamp (endOfDayMs E)]
  · intro s D hD
    obtain ⟨K, hK⟩ := parseDateInput_aligned (some s) D hD
    have hs : s ≠ "" := by
      intro hh
      rw [hh] at hD
      simp [parseDateInput] at hD
    simp only [filterMessagesByDate, hD, decide_eq_true_eq, if_false,
      Bool.false_and, decide_eq_false hs]
    apply List.filter_congr
    intro m _
    rw [bool_not_lt D m.timestamp, bool_not_gt m.timestamp (endOfDayMs D)]
    rw [show (decide (jsDay m.timestamp = jsDay D)) =
        decide (D ≤ m.timestamp ∧ m.timestamp ≤ endOfDayMs D) from
      decide_eq_decide.mpr (jsDay_window D m.timestamp K hK)]
    simp

unseal Rat.add Rat.mul Rat.sub Rat.inv in
theorem filterMessagesByDate_spec_witness :
    filterMessagesByDate c1Messages (some "2024-01-01")
        (some "2024-01-01") =
      c1Messages.filter
        (fun m => decide (jsDay m.timestamp = jsDay 1704067200000)) :=
  (filterMessagesByDate_spec c1Messages none none).2.2.2.2 "2024-01-01"
    1704067200000 (by decide)

/-- The number of qualifying response gaps recorded for `author`. -/
def qualifyingGapCount (messages : List Msg) (options : StatsOptions)
    (author : String) : Nat :=
  ((alistGet (responseTrackingOf messages options) author).getD []).length

theorem statsStep_responseTracking (g : Option ℚ) (b : ℚ) (acc : StatsAcc)
    (m : Msg) :
    (statsStep g b acc m).responseTracking =
      if m.type = MsgKind.system then acc.responseTracking
      else
        match acc.previousMessage with
        | some prev =>
            if prev.type = MsgKind.message ∧ prev.author ≠ m.author then
              let tr0 :=
                if (alistGet acc.responseTracking m.author).isSome then
                  acc.responseTracking
                else alistSet acc.responseTracking m.author []
              if gapQualifies g b prev m then
                alistSet tr0 m.author
                  (((alistGet tr0 m.author).getD []) ++ [gapDelta prev m])
              else tr0
            else acc.responseTracking
        | none => acc.responseTracking := by
  by_cases hsys : m.type = MsgKind.system
  · simp [statsStep, hsys]
  · by_cases hmed : isMediaMessage m.content = true
    · cases hprev : acc.previousMessage with
      | none => simp [statsStep, hsys, hprev, hmed]
      | some prev =>
          by_cases hc : prev.type = MsgKind.message ∧ prev.author ≠ m.author
          · by_cases hq : gapQualifies g b prev m = true
            · simp [statsStep, hsys, hprev, hc, hq, hmed]
            · simp [statsStep, hsys, hprev, hc, hq, hmed]
          · simp [statsStep, hsys, hprev, hc, hmed]
    · cases hprev : acc.previousMessage with
      | none => simp [statsStep, hsys, hprev, hmed]
      | some prev =>
          by_cases hc : prev.type = MsgKind.message ∧ prev.author ≠ m.author
          · by_cases hq : gapQualifies g b prev m = true
            · simp [statsStep, hsys, hprev, hc, hq, hmed]
            · simp [statsStep, hsys, hprev, hc, hq, hmed]
          · simp [statsStep, hsys, hprev, hc, hmed]

theorem statsStep_previousMessage (g : Option ℚ) (b : ℚ) (acc : StatsAcc)
    (m : Msg) : (statsStep g b acc m).previousMessage = some m := by
  by_cases hsys : m.type = MsgKind.system
  · simp [statsStep, hsys]
  · by_cases hmed : isMediaMessage m.content = true
    · cases hprev : acc.previousMessage with
      | none => simp [statsStep, hsys, hprev, hmed]
      | some prev =>
          by_cases hc : prev.type = MsgKind.message ∧ prev.author ≠ m.author
          · by_cases hq : gapQualifies g b prev m = true
            · simp [statsStep, hsys, hprev, hc, hq, hmed]
            · simp [statsStep, hsys, hprev, hc, hq, hmed]
          · simp [statsStep, hsys, hprev, hc, hmed]
    · cases hprev : acc.previousMessage with
      | none => simp [statsStep, hsys, hprev, hmed]
      | some prev =>
          by_cases hc : prev.type = MsgKind.message ∧ prev.author ≠ m.author
          · by_cases hq : gapQualifies g b prev m = true
            · simp [statsStep, hsys, hprev, hc, hq, hmed]
            · simp [statsStep, hsys, hprev, hc, hq, hmed]
          · simp [statsStep, hsys, hprev, hc, hmed]

/-- Lengths of the per-author gap list are unchanged by the
    ensure-entry step (`if (!responseTracking[author]) … = []`). -/
theorem tr0_getD_length (t : List (String × List ℚ)) (a0 a : String) :
    ((alistGet (if (alistGet t a0).isSome then t else alistSet t a0 [])
        a).getD []).length = ((alistGet t a).getD []).length := by
  by_cases hs : (alistGet t a0).isSome
  · rw [if_pos hs]
  · rw [if_neg hs, alistGet_set]
    by_cases ha : a = a0
    · subst ha
      rw [if_pos (by simp)]
      rcases ho : alistGet t a with _ | v
      · simp
      · rw [ho] at hs; simp at hs
    · rw [if_neg (by simpa using ha)]

theorem tr0_isSome (t : List (String × List ℚ)) (a0 a : String) :
    (alistGet (if (alistGet t a0).isSome then t else alistSet t a0 [])
        a).isSome =
      ((alistGet t a).isSome || a == a0) := by
  by_cases hs : (alistGet t a0).isSome
  · rw [if_pos hs]
    by_cases ha : a = a0
    · subst ha; simp [hs]
    · simp [beq_eq_false_iff_ne.mpr ha]
  · rw [if_neg hs, alistGet_set]
    by_cases ha : a = a0
    · subst ha; simp
    · simp [beq_eq_false_iff_ne.mpr ha, if_neg (by simpa using ha)]

theorem statsFold_tracking_mono (g1 g2 : Option ℚ) (b : ℚ) (l : List Msg)
    (acc1 acc2 : StatsAcc)
    (hq : ∀ prev msg, gapQualifies g1 b prev msg = true →
      gapQualifies g2 b prev msg = true)
    (hprev : acc1.previousMessage = acc2.previousMessage)
    (hdom : ∀ a, (alistGet acc1.responseTracking a).isSome =
      (alistGet acc2.responseTracking a).isSome)
    (hlen : ∀ a, ((alistGet acc1.responseTracking a).getD []).length ≤
      ((alistGet acc2.responseTracking a).getD []).length) :
    (∀ a, (alistGet (l.foldl (statsStep g1 b) acc1).responseTracking
        a).isSome =
      (alistGet (l.foldl (statsStep g2 b) acc2).responseTracking
        a).isSome) ∧
    (∀ a, ((alistGet (l.foldl (statsStep g1 b) acc1).responseTracking
        a).getD []).length ≤
      ((alistGet (l.foldl (statsStep g2 b) acc2).responseTracking
        a).getD []).length) := by
  induction l generalizing acc1 acc2 with
  | nil => exact ⟨hdom, hlen⟩
  | cons m rest ih =>
      rw [List.foldl_cons, List.foldl_cons]
      apply ih
      · rw [statsStep_previousMessage, statsStep_previousMessage]
      · intro a
        rw [statsStep_responseTracking, statsStep_responseTracking, ← hprev]
        by_cases hsys : m.type = MsgKind.system
        · simp only [if_pos hsys]; exact hdom a
        · simp only [if_neg hsys]
          cases hp : acc1.previousMessage with
          | none => exact hdom a
          | some prev =>
              by_cases hc : prev.type = MsgKind.message ∧
                  prev.author ≠ m.author
              · simp only [if_pos hc]
                by_cases hq1 : gapQualifies g1 b prev m = true
                · have hq2 := hq prev m hq1
                  simp only [hq1, hq2, if_true]
                  by_cases ha : a = m.author
                  · subst ha
                    simp [alistGet_set, tr0_isSome]
                  · simp [alistGet_set, beq_eq_false_iff_ne.mpr ha,
                      tr0_isSome, hdom a]
                · by_cases hq2 : gapQualifies g2 b prev m = true
                  · simp only [hq1, hq2, if_true, Bool.false_eq_true,
                      if_false]
                    by_cases ha : a = m.author
                    · subst ha
                      simp [alistGet_set, tr0_isSome]
                    · simp [alistGet_set, beq_eq_false_iff_ne.mpr ha,
                        tr0_isSome, hdom a]
                  · simp only [hq1, hq2, Bool.false_eq_true, if_false,
                      tr0_isSome]
                    by_cases ha : a = m.author
                    · subst ha; simp
                    · simp [beq_eq_false_iff_ne.mpr ha, hdom a]
              · simp only [if_neg hc]; exact hdom a
      · intro a
        rw [statsStep_responseTracking, statsStep_responseTracking, ← hprev]
        by_cases hsys : m.type = MsgKind.system
        · simp only [if_pos hsys]; exact hlen a
        · simp only [if_neg hsys]
          cases hp : acc1.previousMessage with
          | none => exact hlen a
          | some prev =>
              by_cases hc : prev.type = MsgKind.message ∧
                  prev.author ≠ m.author
              · simp only [if_pos hc]
                by_cases hq1 : gapQualifies g1 b prev m = true
                · have hq2 := hq prev m hq1
                  simp only [hq1, hq2, if_true]
                  by_cases ha : a = m.author
                  · subst ha
                    simp only [alistGet_set, beq_self_eq_true, if_true,
                      Option.getD_some, List.length_append,
                      tr0_getD_length]
                    have := hlen m.author
                    omega
                  · simp only [alistGet_set,
                      beq_eq_false_iff_ne.mpr ha, Bool.false_eq_true,
                      if_false, tr0_getD_length]
                    exact hlen a
                · by_cases hq2 : gapQualifies g2 b prev m = true
                  · simp only [hq1, hq2, if_true, Bool.false_eq_true,
                      if_false]
                    by_cases ha : a = m.author
                    · subst ha
                      simp only [alistGet_set, beq_self_eq_true, if_true,
                        Option.getD_some, List.length_append,
                        tr0_getD_length]
                      have := hlen m.author
                      omega
                    · simp only [alistGet_set,
                        beq_eq_false_iff_ne.mpr ha, Bool.false_eq_true,
                        if_false, tr0_getD_length]
                      exact hlen a
                  · simp only [hq1, hq2, Bool.false_eq_true, if_false,
                      tr0_getD_length]
                    exact hlen a
              · simp only [if_neg hc]; exact hlen a

/-- Statistics options with a given cutoff and overnight buffer. -/
def gapOptions (g : Option ℚ) (b : Option ℚ) : StatsOptions :=
  { responseGapMinutes := g, overnightBufferMinutes := b }

/-- C8: tightening the response cutoff never adds qualifying gaps — for
    every message list, buffer and participant, going from no configured
    cutoff to a positive N, and from N down to a smaller positive M, never
    increases the recorded qualifying-gap count; and under cutoff N a gap
    qualifies exactly when its delta is at most N plus the overnight buffer
    when the two messages fall on different local calendar days. -/
theorem responseGap_cutoff_monotone (msgs : List Msg) (bufOpt : Option ℚ)
    (N M : ℚ) (author : String) (hM : 0 < M) (hMN : M ≤ N) :
    qualifyingGapCount msgs (gapOptions (some M) bufOpt) author ≤
      qualifyingGapCount msgs (gapOptions (some N) bufOpt) author ∧
    qualifyingGapCount msgs (gapOptions (some N) bufOpt) author ≤
      qualifyingGapCount msgs (gapOptions none bufOpt) author ∧
    (∀ prev m : Msg,
      gapQualifies (some N) (normBuffer (gapOptions (some N) bufOpt))
          prev m = true ↔
        gapDelta prev m ≤ N +
          (if crossesOvernightB prev m then
            normBuffer (gapOptions (some N) bufOpt) else 0)) := by
  have hN : 0 < N := lt_of_lt_of_le hM hMN
  have hgM : normBaseGap (gapOptions (some M) bufOpt) = some M := by
    simp [normBaseGap, gapOptions, hM]
  have hgN : normBaseGap (gapOptions (some N) bufOpt) = some N := by
    simp [normBaseGap, gapOptions, hN]
  have hgU : normBaseGap (gapOptions none bufOpt) = none := rfl
  have hbuf : normBuffer (gapOptions (some M) bufOpt) =
      normBuffer (gapOptions (some N) bufOpt) := rfl
  have hbufU : normBuffer (gapOptions none bufOpt) =
      normBuffer (gapOptions (some N) bufOpt) := rfl
  refine ⟨?_, ?_, ?_⟩
  · unfold qualifyingGapCount responseTrackingOf statsFold
    rw [hgM, hgN, hbuf]
    refine (statsFold_tracking_mono (some M) (some N) _ _ initialAcc
      initialAcc ?_ rfl (fun a => rfl) (fun a => le_refl _)).2 author
    intro prev m hq1
    unfold gapQualifies gapAllowance at hq1 ⊢
    simp only [decide_eq_true_eq] at hq1 ⊢
    calc gapDelta prev m ≤ M + _ := hq1
      _ ≤ N + _ := by apply add_le_add_right hMN
  · unfold qualifyingGapCount responseTrackingOf statsFold
    rw [hgN, hgU, hbufU]
    refine (statsFold_tracking_mono (some N) none _ _ initialAcc
      initialAcc ?_ rfl (fun a => rfl) (fun a => le_refl _)).2 author
    intro prev m _
    rfl
  · intro prev m
    unfold gapQualifies gapAllowance
    simp

/-- The concrete exchange used to witness the cutoff monotonicity: a short
    evening reply followed by a long overnight gap. -/
def c8Messages : List Msg :=
  [{ timestamp := jsDateMs 2024 0 1 21 0 0, author := "Alice",
     content := "Evening check-in", type := .message },
   { timestamp := jsDateMs 2024 0 1 21 10 0, author := "Bob",
     content := "All good!", type := .message },
   { timestamp := jsDateMs 2024 0 1 22 0 0, author := "Alice",
     content := "Heading to sleep", type := .message },
   { timestamp := jsDateMs 2024 0 2 6 30 0, author := "Bob",
     content := "Morning update", type := .message }]

theorem responseGap_cutoff_monotone_witness :
    qualifyingGapCount c8Messages (gapOptions (some 10) none) "Bob" ≤
      qualifyingGapCount c8Messages (gapOptions (some 60) none) "Bob" ∧
    qualifyingGapCount c8Messages (gapOptions (some 60) none) "Bob" ≤
      qualifyingGapCount c8Messages (gapOptions none none) "Bob" ∧
    (∀ prev m : Msg,
      gapQualifies (some 60) (normBuffer (gapOptions (some 60) none))
          prev m = true ↔
        gapDelta prev m ≤ 60 +
          (if crossesOvernightB prev m then
            normBuffer (gapOptions (some 60) none) else 0)) :=
  responseGap_cutoff_monotone c8Messages none 60 10 "Bob" (by decide)
    (by decide)

/-! ### Aggregate characterizations for the media-neutrality claim -/

/-- Words contributed by one message to `totalWords` (system and media
    messages contribute nothing). -/
def msgWordContribution (m : Msg) : Nat :=
  if m.type = MsgKind.message ∧ isMediaMessage m.content = false then
    (extractWords m.content).length
  else 0

/-- Words contributed by one message to `wordCountByParticipant[a]`. -/
def wordContribOf (a : String) (m : Msg) : Nat :=
  if m.type = MsgKind.message ∧ a = m.author ∧
      isMediaMessage m.content = false then
    (extractWords m.content).length
  else 0

/-- Is `m` a non-system message authored by `a`? -/
def isMsgBy (a : String) (m : Msg) : Bool :=
  m.type == MsgKind.message && m.author == a

/-- The word stream a message feeds into the global `words` array. -/
def wordsOfMsg (m : Msg) : List String :=
  if m.type = MsgKind.message ∧ isMediaMessage m.content = false then
    extractWords m.content
  else []

/-- The emoji stream a message feeds into the emoji `Map`. -/
def emojisOfMsg (m : Msg) : List Char :=
  if m.type = MsgKind.message ∧ isMediaMessage m.content = false then
    extractEmojis m.content
  else []

theorem statsStep_totalWords (g : Option ℚ) (b : ℚ) (acc : StatsAcc)
    (m : Msg) :
    (statsStep g b acc m).totalWords =
      acc.totalWords + msgWordContribution m := by
  by_cases hsys : m.type = MsgKind.system
  · have hmsg : ¬m.type = MsgKind.message := by
      cases htype : m.type <;> simp_all
    simp [statsStep, hsys, msgWordContribution, hmsg]
  · have hmsg : m.type = MsgKind.message := by
      cases htype : m.type <;> simp_all
    by_cases hmed : isMediaMessage m.content = true
    · cases hprev : acc.previousMessage with
      | none => simp [statsStep, hsys, hprev, hmed, msgWordContribution, hmsg]
      | some prev =>
          by_cases hc : prev.type = MsgKind.message ∧ prev.author ≠ m.author
          · by_cases hq : gapQualifies g b prev m = true <;>
              simp [statsStep, hsys, hprev, hc, hq, hmed,
                msgWordContribution, hmsg]
          · simp [statsStep, hsys, hprev, hc, hmed, msgWordContribution,
              hmsg]
    · cases hprev : acc.previousMessage with
      | none => simp [statsStep, hsys, hprev, hmed, msgWordContribution, hmsg]
      | some prev =>
          by_cases hc : prev.type = MsgKind.message ∧ prev.author ≠ m.author
          · by_cases hq : gapQualifies g b prev m = true <;>
              simp [statsStep, hsys, hprev, hc, hq, hmed,
                msgWordContribution, hmsg]
          · simp [statsStep, hsys, hprev, hc, hmed, msgWordContribution,
              hmsg]

theorem statsStep_totalMessages (g : Option ℚ) (b : ℚ) (acc : StatsAcc)
    (m : Msg) :
    (statsStep g b acc m).totalMessages =
      acc.totalMessages + (if m.type = MsgKind.message then 1 else 0) := by
  by_cases hsys : m.type = MsgKind.system
  · have hmsg : ¬m.type = MsgKind.message := by
      cases htype : m.type <;> simp_all
    simp [statsStep, hsys, hmsg]
  · have hmsg : m.type = MsgKind.message := by
      cases htype : m.type <;> simp_all
    by_cases hmed : isMediaMessage m.content = true
    · cases hprev : acc.previousMessage with
      | none => simp [statsStep, hsys, hprev, hmed, hmsg]
      | some prev =>
          by_cases hc : prev.type = MsgKind.message ∧ prev.author ≠ m.author
          · by_cases hq : gapQualifies g b prev m = true <;>
              simp [statsStep, hsys, hprev, hc, hq, hmed, hmsg]
          · simp [statsStep, hsys, hprev, hc, hmed, hmsg]
    · cases hprev : acc.previousMessage with
      | none => simp [statsStep, hsys, hprev, hmed, hmsg]
      | some prev =>
          by_cases hc : prev.type = MsgKind.message ∧ prev.author ≠ m.author
          · by_cases hq : gapQualifies g b prev m = true <;>
              simp [statsStep, hsys, hprev, hc, hq, hmed, hmsg]
          · simp [statsStep, hsys, hprev, hc, hmed, hmsg]

theorem statsStep_mediaCount (g : Option ℚ) (b : ℚ) (acc : StatsAcc)
    (m : Msg) :
    (statsStep g b acc m).mediaCount =
      acc.mediaCount +
        (if m.type = MsgKind.message ∧ isMediaMessage m.content = true
         then 1 else 0) := by
  by_cases hsys : m.type = MsgKind.system
  · have hmsg : ¬m.type = MsgKind.message := by
      cases htype : m.type <;> simp_all
    simp [statsStep, hsys, hmsg]
  · have hmsg : m.type = MsgKind.message := by
      cases htype : m.type <;> simp_all
    by_cases hmed : isMediaMessage m.content = true
    · cases hprev : acc.previousMessage with
      | none => simp [statsStep, hsys, hprev, hmed, hmsg]
      | some prev =>
          by_cases hc : prev.type = MsgKind.message ∧ prev.author ≠ m.author
          · by_cases hq : gapQualifies g b prev m = true <;>
              simp [statsStep, hsys, hprev, hc, hq, hmed, hmsg]
          · simp [statsStep, hsys, hprev, hc, hmed, hmsg]
    · cases hprev : acc.previousMessage with
      | none => simp [statsStep, hsys, hprev, hmed, hmsg]
      | some prev =>
          by_cases hc : prev.type = MsgKind.message ∧ prev.author ≠ m.author
          · by_cases hq : gapQualifies g b prev m = true <;>
              simp [statsStep, hsys, hprev, hc, hq, hmed, hmsg]
          · simp [statsStep, hsys, hprev, hc, hmed, hmsg]

theorem statsStep_words (g : Option ℚ) (b : ℚ) (acc : StatsAcc) (m : Msg) :
    (statsStep g b acc m).words = acc.words ++ wordsOfMsg m := by
  by_cases hsys : m.type = MsgKind.system
  · have hmsg : ¬m.type = MsgKind.message := by
      cases htype : m.type <;> simp_all
    simp [statsStep, hsys, wordsOfMsg, hmsg]
  · have hmsg : m.type = MsgKind.message := by
      cases htype : m.type <;> simp_all
    by_cases hmed : isMediaMessage m.content = true
    · cases hprev : acc.previousMessage with
      | none => simp [statsStep, hsys, hprev, hmed, wordsOfMsg, hmsg]
      | some prev =>
          by_cases hc : prev.type = MsgKind.message ∧ prev.author ≠ m.author
          · by_cases hq : gapQualifies g b prev m = true <;>
              simp [statsStep, hsys, hprev, hc, hq, hmed, wordsOfMsg, hmsg]
          · simp [statsStep, hsys, hprev, hc, hmed, wordsOfMsg, hmsg]
    · cases hprev : acc.previousMessage with
      | none => simp [statsStep, hsys, hprev, hmed, wordsOfMsg, hmsg]
      | some prev =>
          by_cases hc : prev.type = MsgKind.message ∧ prev.author ≠ m.author
          · by_cases hq : gapQualifies g b prev m = true <;>
              simp [statsStep, hsys, hprev, hc, hq, hmed, wordsOfMsg, hmsg]
          · simp [statsStep, hsys, hprev, hc, hmed, wordsOfMsg, hmsg]

/-- The ensure-entry write (`if (!map[k0]) map[k0] = v0`) does not change
    any key's value read with default `v0`. -/
theorem alistEnsure_getD [BEq K] [LawfulBEq K] (t : List (K × V))
    (k0 k : K) (v0 : V) :
    (alistGet (if (alistGet t k0).isSome then t else alistSet t k0 v0)
        k).getD v0 = (alistGet t k).getD v0 := by
  by_cases hs : (alistGet t k0).isSome
  · rw [if_pos hs]
  · rw [if_neg hs, alistGet_set]
    by_cases hk : k = k0
    · subst hk
      rw [if_pos (by simp)]
      rcases ho : alistGet t k with _ | v
      · simp
      · rw [ho] at hs; simp at hs
    · rw [if_neg (by simpa using hk)]

theorem statsStep_participants_mem (g : Option ℚ) (b : ℚ) (acc : StatsAcc)
    (m : Msg) (a : String) :
    a ∈ (statsStep g b acc m).participantsSet ↔
      a ∈ acc.participantsSet ∨
        (m.type = MsgKind.message ∧ a = m.author) := by
  have hset : (statsStep g b acc m).participantsSet =
      if m.type = MsgKind.system then acc.participantsSet
      else if acc.participantsSet.contains m.author then acc.participantsSet
      else acc.participantsSet ++ [m.author] := by
    by_cases hsys : m.type = MsgKind.system
    · simp [statsStep, hsys]
    · by_cases hmed : isMediaMessage m.content = true
      · cases hprev : acc.previousMessage with
        | none => simp [statsStep, hsys, hprev, hmed]
        | some prev =>
            by_cases hc : prev.type = MsgKind.message ∧
                prev.author ≠ m.author
            · by_cases hq : gapQualifies g b prev m = true <;>
                simp [statsStep, hsys, hprev, hc, hq, hmed]
            · simp [statsStep, hsys, hprev, hc, hmed]
      · cases hprev : acc.previousMessage with
        | none => simp [statsStep, hsys, hprev, hmed]
        | some prev =>
            by_cases hc : prev.type = MsgKind.message ∧
                prev.author ≠ m.author
            · by_cases hq : gapQualifies g b prev m = true <;>
                simp [statsStep, hsys, hprev, hc, hq, hmed]
            · simp [statsStep, hsys, hprev, hc, hmed]
  rw [hset]
  by_cases hsys : m.type = MsgKind.system
  · have hmsg : ¬m.type = MsgKind.message := by
      cases htype : m.type <;> simp_all
    simp [hsys, hmsg]
  · have hmsg : m.type = MsgKind.message := by
      cases htype : m.type <;> simp_all
    rw [if_neg hsys]
    by_cases hcont : acc.participantsSet.contains m.author = true
    · rw [if_pos hcont]
      constructor
      · intro h; exact Or.inl h
      · intro h
        rcases h with h | ⟨_, rfl⟩
        · exact h
        · simpa using hcont
    · rw [if_neg hcont]
      simp [hmsg]

theorem statsStep_wordCount_lookup (g : Option ℚ) (b : ℚ) (acc : StatsAcc)
    (m : Msg) (a : String) :
    alistGet (statsStep g b acc m).wordCountByParticipant a =
      if m.type = MsgKind.message ∧ a = m.author then
        some (((alistGet acc.wordCountByParticipant a).getD 0) +
          (if isMediaMessage m.content = true then 0
           else (extractWords m.content).length))
      else alistGet acc.wordCountByParticipant a := by
  have hwc : (statsStep g b acc m).wordCountByParticipant =
      if m.type = MsgKind.system then acc.wordCountByParticipant
      else if isMediaMessage m.content = true then
        (if (alistGet acc.wordCountByParticipant m.author).isSome then
          acc.wordCountByParticipant
        else alistSet acc.wordCountByParticipant m.author 0)
      else
        alistSet
          (if (alistGet acc.wordCountByParticipant m.author).isSome then
            acc.wordCountByParticipant
          else alistSet acc.wordCountByParticipant m.author 0)
          m.author
          (((alistGet
              (if (alistGet acc.wordCountByParticipant m.author).isSome then
                acc.wordCountByParticipant
              else alistSet acc.wordCountByParticipant m.author 0)
              m.author).getD 0) + (extractWords m.content).length) := by
    by_cases hsys : m.type = MsgKind.system
    · simp [statsStep, hsys]
    · by_cases hmed : isMediaMessage m.content = true
      · cases hprev : acc.previousMessage with
        | none => simp [statsStep, hsys, hprev, hmed]
        | some prev =>
            by_cases hc : prev.type = MsgKind.message ∧
                prev.author ≠ m.author
            · by_cases hq : gapQualifies g b prev m = true <;>
                simp [statsStep, hsys, hprev, hc, hq, hmed]
            · simp [statsStep, hsys, hprev, hc, hmed]
      · cases hprev : acc.previousMessage with
        | none => simp [statsStep, hsys, hprev, hmed]
        | some prev =>
            by_cases hc : prev.type = MsgKind.message ∧
                prev.author ≠ m.author
            · by_cases hq : gapQualifies g b prev m = true <;>
                simp [statsStep, hsys, hprev, hc, hq, hmed]
            · simp [statsStep, hsys, hprev, hc, hmed]
  rw [hwc]
  by_cases hsys : m.type = MsgKind.system
  · have hmsg : ¬m.type = MsgKind.message := by
      cases htype : m.type <;> simp_all
    rw [if_pos hsys,
      if_neg (show ¬(m.type = MsgKind.message ∧ a = m.author) from
        fun hh => hmsg hh.1)]
  · have hmsg : m.type = MsgKind.message := by
      cases htype : m.type <;> simp_all
    rw [if_neg hsys]
    by_cases hmed : isMediaMessage m.content = true
    · rw [if_pos hmed]
      by_cases ha : a = m.author
      · subst ha
        rw [if_pos (show m.type = MsgKind.message ∧ m.author = m.author from
            ⟨hmsg, rfl⟩), if_pos hmed]
        by_cases hs : (alistGet acc.wordCountByParticipant m.author).isSome
        · rw [if_pos hs]
          rcases ho : alistGet acc.wordCountByParticipant m.author with _ | v
          · rw [ho] at hs; simp at hs
          · simp [ho]
        · rw [if_neg hs, alistGet_set,
            if_pos (show (m.author == m.author) = true by simp)]
          rcases ho : alistGet acc.wordCountByParticipant m.author with _ | v
          · simp [ho]
          · rw [ho] at hs; simp at hs
      · rw [if_neg (show ¬(m.type = MsgKind.message ∧ a = m.author) from
          fun hh => ha hh.2)]
        by_cases hs : (alistGet acc.wordCountByParticipant m.author).isSome
        · rw [if_pos hs]
        · rw [if_neg hs, alistGet_set,
            if_neg (show ¬((a == m.author) = true) by simpa using ha)]
    · rw [if_neg hmed]
      by_cases ha : a = m.author
      · subst ha
        rw [if_pos (show m.type = MsgKind.message ∧ m.author = m.author from
            ⟨hmsg, rfl⟩), if_neg hmed, alistGet_set,
          if_pos (show (m.author == m.author) = true by simp)]
        rw [alistEnsure_getD]
      · rw [if_neg (show ¬(m.type = MsgKind.message ∧ a = m.author) from
          fun hh => ha hh.2), alistGet_set,
          if_neg (show ¬((a == m.author) = true) by simpa using ha)]
        by_cases hs : (alistGet acc.wordCountByParticipant m.author).isSome
        · rw [if_pos hs]
        · rw [if_neg hs, alistGet_set,
            if_neg (show ¬((a == m.author) = true) by simpa using ha)]

/-- Lookup after the per-element increment fold used for emoji counting. -/
theorem foldl_inc_lookup (es : List Char) (m0 : List (Char × Nat))
    (e : Char) :
    alistGet (es.foldl
        (fun mm x => alistSet mm x (((alistGet mm x).getD 0) + 1)) m0) e =
      match alistGet m0 e with
      | some v => some (v + es.count e)
      | none => if es.count e = 0 then none else some (es.count e) := by
  induction es generalizing m0 with
  | nil =>
      rcases ho : alistGet m0 e with _ | v <;> simp [ho]
  | cons x es2 ih =>
      rw [List.foldl_cons, ih]
      by_cases hx : e = x
      · subst hx
        rw [alistGet_set, if_pos (show (e == e) = true by simp)]
        rcases ho : alistGet m0 e with _ | v
        · simp only [ho, Option.getD_none]
          rw [List.count_cons_self]
          rw [if_neg (by omega)]
          simp [Nat.add_comm]
        · simp only [ho, Option.getD_some]
          rw [List.count_cons_self]
          simp [Nat.add_comm, Nat.add_assoc, Nat.add_left_comm]
      · rw [alistGet_set,
          if_neg (show ¬((e == x) = true) by simpa using hx)]
        rw [List.count_cons_of_ne hx]

theorem statsStep_emoji_lookup (g : Option ℚ) (b : ℚ) (acc : StatsAcc)
    (m : Msg) (e : Char) :
    alistGet (statsStep g b acc m).emojiCounts e =
      match alistGet acc.emojiCounts e with
      | some v => some (v + (emojisOfMsg m).count e)
      | none => if (emojisOfMsg m).count e = 0 then none
                else some ((emojisOfMsg m).count e) := by
  have hemo : (statsStep g b acc m).emojiCounts =
      (emojisOfMsg m).foldl
        (fun mm x => alistSet mm x (((alistGet mm x).getD 0) + 1))
        acc.emojiCounts := by
    by_cases hsys : m.type = MsgKind.system
    · have hmsg : ¬m.type = MsgKind.message := by
        cases htype : m.type <;> simp_all
      simp [statsStep, hsys, emojisOfMsg, hmsg]
    · have hmsg : m.type = MsgKind.message := by
        cases htype : m.type <;> simp_all
      by_cases hmed : isMediaMessage m.content = true
      · cases hprev : acc.previousMessage with
        | none => simp [statsStep, hsys, hprev, hmed, emojisOfMsg, hmsg]
        | some prev =>
            by_cases hc : prev.type = MsgKind.message ∧
                prev.author ≠ m.author
            · by_cases hq : gapQualifies g b prev m = true <;>
                simp [statsStep, hsys, hprev, hc, hq, hmed, emojisOfMsg,
                  hmsg]
            · simp [statsStep, hsys, hprev, hc, hmed, emojisOfMsg, hmsg]
      · cases hprev : acc.previousMessage with
        | none => simp [statsStep, hsys, hprev, hmed, emojisOfMsg, hmsg]
        | some prev =>
            by_cases hc : prev.type = MsgKind.message ∧
                prev.author ≠ m.author
            · by_cases hq : gapQualifies g b prev m = true <;>
                simp [statsStep, hsys, hprev, hc, hq, hmed, emojisOfMsg,
                  hmsg]
            · simp [statsStep, hsys, hprev, hc, hmed, emojisOfMsg, hmsg]
  rw [hemo, foldl_inc_lookup]

theorem statsFold_totalWords (g : Option ℚ) (b : ℚ) (l : List Msg)
    (acc : StatsAcc) :
    (l.foldl (statsStep g b) acc).totalWords =
      acc.totalWords + (l.map msgWordContribution).sum := by
  induction l generalizing acc with
  | nil => simp
  | cons m rest ih =>
      rw [List.foldl_cons, ih, statsStep_totalWords]
      simp [Nat.add_assoc]

theorem statsFold_totalMessages (g : Option ℚ) (b : ℚ) (l : List Msg)
    (acc : StatsAcc) :
    (l.foldl (statsStep g b) acc).totalMessages =
      acc.totalMessages +
        (l.map (fun m => if m.type = MsgKind.message then 1 else 0)).sum := by
  induction l generalizing acc with
  | nil => simp
  | cons m rest ih =>
      rw [List.foldl_cons, ih, statsStep_totalMessages]
      simp [Nat.add_assoc]

theorem statsFold_mediaCount (g : Option ℚ) (b : ℚ) (l : List Msg)
    (acc : StatsAcc) :
    (l.foldl (statsStep g b) acc).mediaCount =
      acc.mediaCount +
        (l.map (fun m =>
          if m.type = MsgKind.message ∧ isMediaMessage m.content = true
          then 1 else 0)).sum := by
  induction l generalizing acc with
  | nil => simp
  | cons m rest ih =>
      rw [List.foldl_cons, ih, statsStep_mediaCount]
      simp [Nat.add_assoc]

theorem statsFold_words (g : Option ℚ) (b : ℚ) (l : List Msg)
    (acc : StatsAcc) :
    (l.foldl (statsStep g b) acc).words =
      acc.words ++ l.flatMap wordsOfMsg := by
  induction l generalizing acc with
  | nil => simp
  | cons m rest ih =>
      rw [List.foldl_cons, ih, statsStep_words]
      simp

theorem statsFold_participants_mem (g : Option ℚ) (b : ℚ) (l : List Msg)
    (acc : StatsAcc) (a : String) :
    a ∈ (l.foldl (statsStep g b) acc).participantsSet ↔
      a ∈ acc.participantsSet ∨
        ∃ m ∈ l, m.type = MsgKind.message ∧ a = m.author := by
  induction l generalizing acc with
  | nil => simp
  | cons m rest ih =>
      rw [List.foldl_cons, ih, statsStep_participants_mem]
      constructor
      · rintro ((h | h) | ⟨x, hx, hp⟩)
        · exact Or.inl h
        · exact Or.inr ⟨m, List.mem_cons_self m rest, h⟩
        · exact Or.inr ⟨x, List.mem_cons_of_mem m hx, hp⟩
      · rintro (h | ⟨x, hx, hp⟩)
        · exact Or.inl (Or.inl h)
        · rcases List.mem_cons.mp hx with rfl | hx2
          · exact Or.inl (Or.inr hp)
          · exact Or.inr ⟨x, hx2, hp⟩

theorem statsFold_wordCount_lookup (g : Option ℚ) (b : ℚ) (l : List Msg)
    (acc : StatsAcc) (a : String) :
    alistGet (l.foldl (statsStep g b) acc).wordCountByParticipant a =
      match alistGet acc.wordCountByParticipant a with
      | some v => some (v + (l.map (wordContribOf a)).sum)
      | none =>
          if l.any (isMsgBy a) = true then
            some ((l.map (wordContribOf a)).sum)
          else none := by
  induction l generalizing acc with
  | nil =>
      rcases ho : alistGet acc.wordCountByParticipant a with _ | v <;>
        simp [ho]
  | cons m rest ih =>
      rw [List.foldl_cons, ih, statsStep_wordCount_lookup]
      by_cases hm : m.type = MsgKind.message ∧ a = m.author
      · rw [if_pos hm]
        have hc0 : (if isMediaMessage m.content = true then 0
            else (extractWords m.content).length) = wordContribOf a m := by
          by_cases hmed : isMediaMessage m.content = true <;>
            simp [wordContribOf, hm.1, hm.2, hmed]
        have hb : isMsgBy a m = true := by
          simp [isMsgBy, hm.1, hm.2.symm]
        rcases ho : alistGet acc.wordCountByParticipant a with _ | v
        · simp only [ho, Option.getD_none, List.map_cons, List.sum_cons,
            List.any_cons, hb, Bool.true_or, if_true, hc0, Nat.zero_add]
        · simp only [ho, Option.getD_some, List.map_cons, List.sum_cons,
            hc0, Option.some.injEq]
          omega
      · rw [if_neg hm]
        have hc0 : wordContribOf a m = 0 := by
          unfold wordContribOf
          rw [if_neg (fun hh => hm ⟨hh.1, hh.2.1⟩)]
        have hb : isMsgBy a m = false := by
          unfold isMsgBy
          by_cases h1 : m.type = MsgKind.message
          · by_cases h2 : m.author = a
            · exact absurd ⟨h1, h2.symm⟩ hm
            · simp [beq_eq_false_iff_ne.mpr h2]
          · simp [beq_eq_false_iff_ne.mpr h1]
        rcases ho : alistGet acc.wordCountByParticipant a with _ | v <;>
          simp [ho, hc0, hb]

theorem statsFold_emoji_lookup (g : Option ℚ) (b : ℚ) (l : List Msg)
    (acc : StatsAcc) (e : Char) :
    alistGet (l.foldl (statsStep g b) acc).emojiCounts e =
      match alistGet acc.emojiCounts e with
      | some v => some (v + (l.flatMap emojisOfMsg).count e)
      | none =>
          if (l.flatMap emojisOfMsg).count e = 0 then none
          else some ((l.flatMap emojisOfMsg).count e) := by
  induction l generalizing acc with
  | nil =>
      rcases ho : alistGet acc.emojiCounts e with _ | v <;> simp [ho]
  | cons m rest ih =>
      rw [List.foldl_cons, ih, statsStep_emoji_lookup]
      have hcnt : ((m :: rest).flatMap emojisOfMsg).count e =
          (emojisOfMsg m).count e + (rest.flatMap emojisOfMsg).count e := by
        rw [List.flatMap_cons, List.count_append]
      rcases ho : alistGet acc.emojiCounts e with _ | v
      · by_cases hm0 : (emojisOfMsg m).count e = 0
        · simp [ho, hm0, hcnt]
        · have h1 : ¬((emojisOfMsg m).count e +
              (rest.flatMap emojisOfMsg).count e = 0) := by omega
          simp [ho, hm0, hcnt, h1]
      · simp only [ho, hcnt, Option.some.injEq]
        omega

/-- The defensive sorted copy is a permutation of the input list. -/
theorem sortedCopy_perm (messages : List Msg) :
    List.Perm (sortedCopy messages) messages :=
  sortByKey_perm msgTs messages

/-- `Array.prototype.some`-style existence is permutation invariant. -/
theorem perm_any_eq {α : Type} {l1 l2 : List α} (h : List.Perm l1 l2)
    (p : α → Bool) : l1.any p = l2.any p := by
  rw [Bool.eq_iff_iff, List.any_eq_true, List.any_eq_true]
  constructor
  · rintro ⟨x, hx, hp⟩
    exact ⟨x, h.mem_iff.mp hx, hp⟩
  · rintro ⟨x, hx, hp⟩
    exact ⟨x, h.mem_iff.mpr hx, hp⟩

/-- Lookup after the per-element increment fold building the word
    frequency table (`words.reduce(...)`, line 428). -/
theorem foldl_inc_lookup_str (es : List String)
    (m0 : List (String × Nat)) (e : String) :
    alistGet (es.foldl
        (fun mm x => alistSet mm x (((alistGet mm x).getD 0) + 1)) m0) e =
      match alistGet m0 e with
      | some v => some (v + es.count e)
      | none => if es.count e = 0 then none else some (es.count e) := by
  induction es generalizing m0 with
  | nil =>
      rcases ho : alistGet m0 e with _ | v <;> simp [ho]
  | cons x es2 ih =>
      rw [List.foldl_cons, ih]
      by_cases hx : e = x
      · subst hx
        rw [alistGet_set, if_pos (show (e == e) = true by simp)]
        rcases ho : alistGet m0 e with _ | v
        · simp only [ho, Option.getD_none]
          rw [List.count_cons_self]
          rw [if_neg (by omega)]
          simp [Nat.add_comm]
        · simp only [ho, Option.getD_some]
          rw [List.count_cons_self]
          simp [Nat.add_comm, Nat.add_assoc, Nat.add_left_comm]
      · rw [alistGet_set,
          if_neg (show ¬((e == x) = true) by simpa using hx)]
        rw [List.count_cons_of_ne hx]

theorem statsFold_totalWords_init (g : Option ℚ) (b : ℚ) (l : List Msg) :
    (statsFold g b l).totalWords = (l.map msgWordContribution).sum := by
  unfold statsFold
  rw [statsFold_totalWords]
  simp [initialAcc]

theorem statsFold_totalMessages_init (g : Option ℚ) (b : ℚ)
    (l : List Msg) :
    (statsFold g b l).totalMessages =
      (l.map (fun m => if m.type = MsgKind.message then 1 else 0)).sum := by
  unfold statsFold
  rw [statsFold_totalMessages]
  simp [initialAcc]

theorem statsFold_mediaCount_init (g : Option ℚ) (b : ℚ) (l : List Msg) :
    (statsFold g b l).mediaCount =
      (l.map (fun m =>
        if m.type = MsgKind.message ∧ isMediaMessage m.content = true
        then 1 else 0)).sum := by
  unfold statsFold
  rw [statsFold_mediaCount]
  simp [initialAcc]

theorem statsFold_words_init (g : Option ℚ) (b : ℚ) (l : List Msg) :
    (statsFold g b l).words = l.flatMap wordsOfMsg := by
  unfold statsFold
  rw [statsFold_words]
  simp [initialAcc]

theorem statsFold_wordCount_init (g : Option ℚ) (b : ℚ) (l : List Msg)
    (a : String) :
    alistGet (statsFold g b l).wordCountByParticipant a =
      if l.any (isMsgBy a) = true then
        some ((l.map (wordContribOf a)).sum)
      else none := by
  unfold statsFold
  rw [statsFold_wordCount_lookup]
  rfl

theorem statsFold_emoji_init (g : Option ℚ) (b : ℚ) (l : List Msg)
    (e : Char) :
    alistGet (statsFold g b l).emojiCounts e =
      if (l.flatMap emojisOfMsg).count e = 0 then none
      else some ((l.flatMap emojisOfMsg).count e) := by
  unfold statsFold
  rw [statsFold_emoji_lookup]
  rfl

/-- The global word-frequency table built by `computeStatistics`
    (line 428) before ranking. -/
def wordTableOf (messages : List Msg) (options : StatsOptions) :
    List (String × Nat) :=
  wordFreqOf (statsFold (normBaseGap options) (normBuffer options)
    (sortedCopy messages))

/-- The emoji-frequency `Map` built by the loop (lines 372–375). -/
def emojiTableOf (messages : List Msg) (options : StatsOptions) :
    List (Char × Nat) :=
  (statsFold (normBaseGap options) (normBuffer options)
    (sortedCopy messages)).emojiCounts

theorem wordTableOf_lookup (messages : List Msg)
    (options : StatsOptions) (w : String) :
    alistGet (wordTableOf messages options) w =
      if (messages.flatMap wordsOfMsg).count w = 0 then none
      else some ((messages.flatMap wordsOfMsg).count w) := by
  unfold wordTableOf wordFreqOf
  rw [statsFold_words_init, foldl_inc_lookup_str]
  have hc : ((sortedCopy messages).flatMap wordsOfMsg).count w =
      (messages.flatMap wordsOfMsg).count w :=
    (List.Perm.count_eq
      (List.Perm.flatMap_right wordsOfMsg (sortedCopy_perm messages)) w)
  rw [show alistGet ([] : List (String × Nat)) w = none from rfl, hc]

theorem emojiTableOf_lookup (messages : List Msg)
    (options : StatsOptions) (e : Char) :
    alistGet (emojiTableOf messages options) e =
      if (messages.flatMap emojisOfMsg).count e = 0 then none
      else some ((messages.flatMap emojisOfMsg).count e) := by
  unfold emojiTableOf
  rw [statsFold_emoji_init]
  have hc : ((sortedCopy messages).flatMap emojisOfMsg).count e =
      (messages.flatMap emojisOfMsg).count e :=
    (List.Perm.count_eq
      (List.Perm.flatMap_right emojisOfMsg (sortedCopy_perm messages)) e)
  rw [hc]

theorem computeStatistics_totalWords (messages : List Msg)
    (options : StatsOptions) :
    (computeStatistics messages options).totalWords =
      (messages.map msgWordContribution).sum := by
  unfold computeStatistics
  by_cases he : messages.isEmpty
  · rw [if_pos he]
    obtain rfl : messages = [] := List.isEmpty_iff.mp he
    rfl
  · rw [if_neg he]
    show (statsFold (normBaseGap options) (normBuffer options)
      (sortedCopy messages)).totalWords = _
    rw [statsFold_totalWords_init]
    exact List.Perm.sum_eq
      (List.Perm.map msgWordContribution (sortedCopy_perm messages))

theorem computeStatistics_totalMessages (messages : List Msg)
    (options : StatsOptions) :
    (computeStatistics messages options).totalMessages =
      (messages.map
        (fun m => if m.type = MsgKind.message then 1 else 0)).sum := by
  unfold computeStatistics
  by_cases he : messages.isEmpty
  · rw [if_pos he]
    obtain rfl : messages = [] := List.isEmpty_iff.mp he
    rfl
  · rw [if_neg he]
    show (statsFold (normBaseGap options) (normBuffer options)
      (sortedCopy messages)).totalMessages = _
    rw [statsFold_totalMessages_init]
    exact List.Perm.sum_eq (List.Perm.map _ (sortedCopy_perm messages))

theorem computeStatistics_mediaCount (messages : List Msg)
    (options : StatsOptions) :
    (computeStatistics messages options).mediaCount =
      (messages.map (fun m =>
        if m.type = MsgKind.message ∧ isMediaMessage m.content = true
        then 1 else 0)).sum := by
  unfold computeStatistics
  by_cases he : messages.isEmpty
  · rw [if_pos he]
    obtain rfl : messages = [] := List.isEmpty_iff.mp he
    rfl
  · rw [if_neg he]
    show (statsFold (normBaseGap options) (normBuffer options)
      (sortedCopy messages)).mediaCount = _
    rw [statsFold_mediaCount_init]
    exact List.Perm.sum_eq (List.Perm.map _ (sortedCopy_perm messages))

theorem computeStatistics_wordCount (messages : List Msg)
    (options : StatsOptions) (a : String) :
    alistGet (computeStatistics messages options).wordCountByParticipant a =
      if messages.any (isMsgBy a) = true then
        some ((messages.map (wordContribOf a)).sum)
      else none := by
  unfold computeStatistics
  by_cases he : messages.isEmpty
  · rw [if_pos he]
    obtain rfl : messages = [] := List.isEmpty_iff.mp he
    rfl
  · rw [if_neg he]
    show alistGet (statsFold (normBaseGap options) (normBuffer options)
      (sortedCopy messages)).wordCountByParticipant a = _
    rw [statsFold_wordCount_init,
      perm_any_eq (sortedCopy_perm messages) (isMsgBy a),
      List.Perm.sum_eq
        (List.Perm.map (wordContribOf a) (sortedCopy_perm messages))]

/-- **C7**: appending one additional message whose content matches a
    media-omission marker (`type === 'message'`, `isMediaMessage(content)`
    true) leaves `totalWords`, every already-tracked participant's word
    count, and the global word- and emoji-frequency tables (lookups at
    every key) unchanged, while `totalMessages` and `mediaCount` each
    increase by exactly 1. (Version 1 of `computeStatistics` emits no
    per-participant word ranking, so the only word rankings it produces
    are derived from the global tables shown unchanged here.) -/
theorem media_message_neutral (msgs : List Msg) (m : Msg)
    (options : StatsOptions) (hm : m.type = MsgKind.message)
    (hmedia : isMediaMessage m.content = true) :
    (computeStatistics (msgs ++ [m]) options).totalWords =
        (computeStatistics msgs options).totalWords ∧
      (∀ a v,
        alistGet (computeStatistics msgs options).wordCountByParticipant
            a = some v →
          alistGet (computeStatistics (msgs ++ [m])
            options).wordCountByParticipant a = some v) ∧
      (computeStatistics (msgs ++ [m]) options).totalMessages =
        (computeStatistics msgs options).totalMessages + 1 ∧
      (computeStatistics (msgs ++ [m]) options).mediaCount =
        (computeStatistics msgs options).mediaCount + 1 ∧
      (∀ w, alistGet (wordTableOf (msgs ++ [m]) options) w =
        alistGet (wordTableOf msgs options) w) ∧
      (∀ e, alistGet (emojiTableOf (msgs ++ [m]) options) e =
        alistGet (emojiTableOf msgs options) e) := by
  have hwc : msgWordContribution m = 0 := by
    unfold msgWordContribution
    rw [if_neg]
    rintro ⟨-, hmed⟩
    rw [hmedia] at hmed
    cases hmed
  have hwords : wordsOfMsg m = [] := by
    unfold wordsOfMsg
    rw [if_neg]
    rintro ⟨-, hmed⟩
    rw [hmedia] at hmed
    cases hmed
  have hemojis : emojisOfMsg m = [] := by
    unfold emojisOfMsg
    rw [if_neg]
    rintro ⟨-, hmed⟩
    rw [hmedia] at hmed
    cases hmed
  refine ⟨?_, ?_, ?_, ?_, ?_, ?_⟩
  · rw [computeStatistics_totalWords, computeStatistics_totalWords,
      List.map_append, List.sum_append]
    simp [hwc]
  · intro a v hv
    rw [computeStatistics_wordCount] at hv
    rw [computeStatistics_wordCount]
    have hwca : wordContribOf a m = 0 := by
      unfold wordContribOf
      rw [if_neg]
      rintro ⟨-, -, hmed⟩
      rw [hmedia] at hmed
      cases hmed
    by_cases hany : msgs.any (isMsgBy a) = true
    · rw [if_pos hany] at hv
      have hany2 : (msgs ++ [m]).any (isMsgBy a) = true := by
        rw [List.any_append, hany, Bool.true_or]
      rw [if_pos hany2, List.map_append, List.sum_append]
      simpa [hwca] using hv
    · rw [if_neg hany] at hv
      cases hv
  · rw [computeStatistics_totalMessages, computeStatistics_totalMessages,
      List.map_append, List.sum_append]
    simp [hm]
  · rw [computeStatistics_mediaCount, computeStatistics_mediaCount,
      List.map_append, List.sum_append]
    simp [hm, hmedia]
  · intro w
    rw [wordTableOf_lookup, wordTableOf_lookup, List.flatMap_append]
    simp [hwords]
  · intro e
    rw [emojiTableOf_lookup, emojiTableOf_lookup, List.flatMap_append]
    simp [hemojis]

def c7Base : List Msg :=
  [{ timestamp := 1704103200000, author := "Alice",
     content := "hello world", type := MsgKind.message }]

def c7Media : Msg :=
  { timestamp := 1704103260000, author := "Bob",
    content := "<Media omitted>", type := MsgKind.message }

theorem media_message_neutral_witness :
    c7Media.type = MsgKind.message ∧
      isMediaMessage c7Media.content = true ∧
      ((computeStatistics (c7Base ++ [c7Media])
          (gapOptions none none)).totalWords =
        (computeStatistics c7Base (gapOptions none none)).totalWords ∧
      (∀ a v,
        alistGet (computeStatistics c7Base
            (gapOptions none none)).wordCountByParticipant a = some v →
          alistGet (computeStatistics (c7Base ++ [c7Media])
            (gapOptions none none)).wordCountByParticipant a = some v) ∧
      (computeStatistics (c7Base ++ [c7Media])
          (gapOptions none none)).totalMessages =
        (computeStatistics c7Base (gapOptions none none)).totalMessages + 1 ∧
      (computeStatistics (c7Base ++ [c7Media])
          (gapOptions none none)).mediaCount =
        (computeStatistics c7Base (gapOptions none none)).mediaCount + 1 ∧
      (∀ w, alistGet (wordTableOf (c7Base ++ [c7Media])
          (gapOptions none none)) w =
        alistGet (wordTableOf c7Base (gapOptions none none)) w) ∧
      (∀ e, alistGet (emojiTableOf (c7Base ++ [c7Media])
          (gapOptions none none)) e =
        alistGet (emojiTableOf c7Base (gapOptions none none)) e)) :=
  ⟨rfl, by decide,
    media_message_neutral c7Base c7Media (gapOptions none none) rfl
      (by decide)⟩

/-! ### Ranking order of the top-word / top-emoji tables -/

/-- Lexicographic (code-point) order on character lists. -/
def alphaLeChars : List Char → List Char → Bool
  | [], _ => true
  | _ :: _, [] => false
  | a :: as, b :: bs => if a = b then alphaLeChars as bs else decide (a < b)

/-- Alphabetical (code-point lexicographic) order on strings. -/
def alphaLe (s t : String) : Bool :=
  alphaLeChars s.toList t.toList

/-- Every tie between equal frequencies is ordered alphabetically. -/
def tiesAlphaB : List (String × Nat) → Bool
  | [] => true
  | a :: t =>
      (t.all fun b => if a.2 = b.2 then alphaLe a.1 b.1 else true) &&
        tiesAlphaB t

theorem statsFromSorted_topWords (sorted : List Msg)
    (options : StatsOptions) :
    (statsFromSorted sorted options).topWords =
      (rankDescWords (jsEntries (wordFreqOf (statsFold
        (normBaseGap options) (normBuffer options) sorted)))).take 15 :=
  rfl

theorem statsFromSorted_topEmojis (sorted : List Msg)
    (options : StatsOptions) :
    (statsFromSorted sorted options).topEmojis =
      (rankDescEmojis ((statsFold (normBaseGap options)
        (normBuffer options) sorted)).emojiCounts).take 10 :=
  rfl

/-- **C6 (amended)**: `topWords` and `topEmojis` are ranked by frequency
    in descending order and truncated to 15 and 10 entries; on a
    non-empty input they are exactly the stable descending-frequency
    sort of the word-frequency object's `Object.entries` enumeration and
    of the emoji `Map`'s insertion-order entries, truncated — the sort
    `(a, b) => b[1] - a[1]` is stable, so ties between equal frequencies
    keep that enumeration order, not alphabetical order. -/
theorem top_tables_ranked (msgs : List Msg) (options : StatsOptions) :
    (computeStatistics msgs options).topWords.Pairwise
        (fun x y => y.2 ≤ x.2) ∧
      (computeStatistics msgs options).topEmojis.Pairwise
        (fun x y => y.2 ≤ x.2) ∧
      (computeStatistics msgs options).topWords.length ≤ 15 ∧
      (computeStatistics msgs options).topEmojis.length ≤ 10 ∧
      (msgs ≠ [] →
        (computeStatistics msgs options).topWords =
            (rankDescWords (jsEntries (wordTableOf msgs options))).take
              15 ∧
          (computeStatistics msgs options).topEmojis =
            (rankDescEmojis (emojiTableOf msgs options)).take 10) := by
  unfold computeStatistics
  by_cases he : msgs.isEmpty
  · rw [if_pos he]
    obtain rfl : msgs = [] := List.isEmpty_iff.mp he
    refine ⟨?_, ?_, ?_, ?_, ?_⟩
    · exact List.Pairwise.nil
    · exact List.Pairwise.nil
    · exact Nat.zero_le 15
    · exact Nat.zero_le 10
    · intro h
      exact absurd rfl h
  · rw [if_neg he]
    rw [statsFromSorted_topWords, statsFromSorted_topEmojis]
    have hpw := sortByKey_pairwise (fun e => -((e.2 : Int)))
      (jsEntries (wordFreqOf (statsFold (normBaseGap options)
        (normBuffer options) (sortedCopy msgs))))
    have hpe := sortByKey_pairwise (fun e => -((e.2 : Int)))
      ((statsFold (normBaseGap options) (normBuffer options)
        (sortedCopy msgs)).emojiCounts)
    refine ⟨?_, ?_, ?_, ?_, ?_⟩
    · exact ((hpw.sublist (List.take_sublist 15 _)).imp
        (fun h => by omega))
    · exact ((hpe.sublist (List.take_sublist 10 _)).imp
        (fun h => by omega))
    · rw [List.length_take]
      exact min_le_left _ _
    · rw [List.length_take]
      exact min_le_left _ _
    · intro h
      exact ⟨rfl, rfl⟩

def c6Msgs : List Msg :=
  [{ timestamp := 1704103200000, author := "Alice",
     content := "zebra apple", type := MsgKind.message }]

/-- A tie between equal frequencies that the code leaves in
    enumeration order, not alphabetical order. -/
theorem topWords_tie_order_counterexample :
    (computeStatistics c6Msgs (gapOptions none none)).topWords =
        [("zebra", 1), ("apple", 1)] ∧
      alphaLe "zebra" "apple" = false ∧
      tiesAlphaB (computeStatistics c6Msgs
        (gapOptions none none)).topWords = false := by
  decide

theorem top_tables_ranked_witness :
    (computeStatistics c6Msgs (gapOptions none none)).topWords.Pairwise
        (fun x y => y.2 ≤ x.2) ∧
      (computeStatistics c6Msgs
        (gapOptions none none)).topEmojis.Pairwise
          (fun x y => y.2 ≤ x.2) ∧
      (computeStatistics c6Msgs (gapOptions none none)).topWords.length ≤
        15 ∧
      (computeStatistics c6Msgs
        (gapOptions none none)).topEmojis.length ≤ 10 ∧
      (c6Msgs ≠ [] →
        (computeStatistics c6Msgs (gapOptions none none)).topWords =
            (rankDescWords (jsEntries (wordTableOf c6Msgs
              (gapOptions none none)))).take 15 ∧
          (computeStatistics c6Msgs (gapOptions none none)).topEmojis =
            (rankDescEmojis (emojiTableOf c6Msgs
              (gapOptions none none))).take 10) :=
  top_tables_ranked c6Msgs (gapOptions none none)

/-! ### Cascade behaviour of the date-format resolver -/

/-- A line is harmless to the early-return scan: either it is not a
    message header, or both its date tokens are ≤ 12 (an ambiguous
    sample). -/
def headerAmbiguous (line : String) : Bool :=
  match matchMessageHeader line with
  | none => true
  | some h => decide (h.day ≤ 12) && decide (h.month ≤ 12)

/-- The `ambiguousSamples` array collected by an all-ambiguous scan:
    every header, in order, capped at 50. -/
def ambiguousSamplesOf (lines : List String) : List RawHeader :=
  (lines.filterMap matchMessageHeader).take 50

/-- The body of one scan step once a header has matched. -/
def ddfBranch (h : RawHeader) (rest : List String)
    (acc : List RawHeader) : FormatResult ⊕ List RawHeader :=
  if h.day > 12 && h.month ≤ 12 then
    Sum.inl { format := .DMY, ambiguous := false, candidates := [] }
  else if h.month > 12 && h.day ≤ 12 then
    Sum.inl { format := .MDY, ambiguous := false, candidates := [] }
  else if h.day ≤ 12 && h.month ≤ 12 then
    let acc2 := acc ++ [h]
    if acc2.length ≥ 50 then Sum.inr acc2 else ddfLoop rest acc2
  else ddfLoop rest acc

theorem ddfLoop_cons (line : String) (rest : List String)
    (acc : List RawHeader) :
    ddfLoop (line :: rest) acc =
      match matchMessageHeader line with
      | none => ddfLoop rest acc
      | some h => ddfBranch h rest acc :=
  rfl

/-- When every header is ambiguous, the scan never returns early and
    collects the first 50 headers (continuing from `acc`). -/
theorem ddfLoop_all_ambiguous (lines : List String)
    (acc : List RawHeader) (hacc : acc.length < 50)
    (hamb : lines.all headerAmbiguous = true) :
    ddfLoop lines acc =
      Sum.inr (acc ++ (lines.filterMap matchMessageHeader).take
        (50 - acc.length)) := by
  induction lines generalizing acc with
  | nil => simp [ddfLoop]
  | cons line rest ih =>
      rw [List.all_cons, Bool.and_eq_true] at hamb
      obtain ⟨hline, hrest⟩ := hamb
      rw [ddfLoop_cons]
      cases hm : matchMessageHeader line with
      | none =>
          show ddfLoop rest acc = _
          rw [List.filterMap_cons_none hm]
          exact ih acc hacc hrest
      | some h =>
          unfold headerAmbiguous at hline
          rw [hm, Bool.and_eq_true, decide_eq_true_eq,
            decide_eq_true_eq] at hline
          obtain ⟨hd, hmo⟩ := hline
          show ddfBranch h rest acc = _
          rw [List.filterMap_cons_some hm]
          unfold ddfBranch
          rw [if_neg (by
              simp only [Bool.and_eq_true, decide_eq_true_eq]
              omega),
            if_neg (by
              simp only [Bool.and_eq_true, decide_eq_true_eq]
              omega),
            if_pos (by simp [hd, hmo])]
          show (if (acc ++ [h]).length ≥ 50 then Sum.inr (acc ++ [h])
            else ddfLoop rest (acc ++ [h])) = _
          have h1 : (acc ++ [h]).length = acc.length + 1 := by simp
          by_cases hfull : (acc ++ [h]).length ≥ 50
          · rw [if_pos hfull]
            have hlen : acc.length = 49 := by omega
            rw [show 50 - acc.length = 1 by omega]
            rfl
          · rw [if_neg hfull]
            have hlt : (acc ++ [h]).length < 50 := by omega
            rw [ih (acc ++ [h]) hlt hrest]
            have harith : 50 - acc.length =
                (50 - (acc ++ [h]).length) + 1 := by omega
            rw [harith, List.take_succ_cons, List.append_assoc]
            rfl

/-- Day-first and month-first candidate evaluations of an all-ambiguous
    transcript. -/
def dmyEval (lines : List String) : FormatEval :=
  evaluateFormat (ambiguousSamplesOf lines) Format.DMY

def mdyEval (lines : List String) : FormatEval :=
  evaluateFormat (ambiguousSamplesOf lines) Format.MDY

/-- The two-candidate ambiguous resolution. -/
def ambiguousResult (lines : List String) : FormatResult :=
  { format := (betterEval (dmyEval lines) (mdyEval lines)).format,
    ambiguous := true,
    candidates := [dmyEval lines, mdyEval lines] }

/-- The conclusive day-first default. -/
def dmyDefaultResult : FormatResult :=
  { format := Format.DMY, ambiguous := false, candidates := [] }

/-- On an all-ambiguous transcript with at least one header, the
    resolver reaches the two-candidate comparison. -/
theorem determineDateFormat_ambiguous (lines : List String)
    (hamb : lines.all headerAmbiguous = true)
    (hne : lines.filterMap matchMessageHeader ≠ []) :
    determineDateFormat lines =
      { format := (betterEval (dmyEval lines) (mdyEval lines)).format,
        ambiguous := true,
        candidates := [dmyEval lines, mdyEval lines] } := by
  unfold determineDateFormat
  rw [ddfLoop_all_ambiguous lines [] (by simp) hamb]
  have hnonempty : (ambiguousSamplesOf lines).isEmpty = false := by
    unfold ambiguousSamplesOf
    cases hfl : lines.filterMap matchMessageHeader with
    | nil => exact absurd hfl hne
    | cons x t => rfl
  show (if (ambiguousSamplesOf lines).isEmpty = true then dmyDefaultResult
    else ambiguousResult lines) = _
  rw [if_neg (by simp [hnonempty])]
  rfl

/-- The timestamps a format evaluation actually visits: parse every
    sample, keep the valid (non-NaN) ones, in order. -/
def validTimestamps (format : Format) (samples : List RawHeader) :
    List Int :=
  (samples.map (fun h => parseDate h.day h.month h.year h.time format)).filter
    (fun t => !timestampIsNaN t)

/-- Chronological decreases along a timestamp sequence, starting from an
    optional previous timestamp. -/
def descents : Option Int → List Int → Nat
  | _, [] => 0
  | none, t :: rest => descents (some t) rest
  | some p, t :: rest => (if t < p then 1 else 0) + descents (some t) rest

theorem evalLoop_decreases (format : Format) (samples : List RawHeader)
    (prev first last : Option Int) (dec val : Nat) :
    (evalLoop format samples prev first last dec val).2.2.1 =
      dec + descents prev (validTimestamps format samples) := by
  induction samples generalizing prev first last dec val with
  | nil => simp [evalLoop, validTimestamps, descents]
  | cons h t ih =>
      rw [show evalLoop format (h :: t) prev first last dec val =
        (let cd := parseDate h.day h.month h.year h.time format
         if timestampIsNaN cd then evalLoop format t prev first last dec val
         else
           let first2 := match first with | none => some cd | some f => some f
           let dec2 := match prev with
             | some p => if cd < p then dec + 1 else dec
             | none => dec
           evalLoop format t (some cd) first2 (some cd) dec2 (val + 1))
        from rfl]
      have hvt : validTimestamps format (h :: t) =
          if timestampIsNaN (parseDate h.day h.month h.year h.time format)
          then validTimestamps format t
          else parseDate h.day h.month h.year h.time format ::
            validTimestamps format t := by
        unfold validTimestamps
        rw [List.map_cons, List.filter_cons]
        by_cases hnan : timestampIsNaN
            (parseDate h.day h.month h.year h.time format) <;>
          simp [hnan]
      by_cases hnan : timestampIsNaN
          (parseDate h.day h.month h.year h.time format)
      · rw [if_pos hnan, hvt, if_pos hnan, ih]
      · rw [if_neg hnan, hvt, if_neg hnan]
        cases prev with
        | none =>
            rw [ih]
            rfl
        | some p =>
            rw [ih]
            show (if parseDate h.day h.month h.year h.time format < p
              then dec + 1 else dec) + _ = _
            by_cases hlt : parseDate h.day h.month h.year h.time format < p
            · rw [if_pos hlt,
                show descents (some p)
                  (parseDate h.day h.month h.year h.time format ::
                    validTimestamps format t) =
                  (if parseDate h.day h.month h.year h.time format < p
                   then 1 else 0) +
                    descents
                      (some (parseDate h.day h.month h.year h.time format))
                      (validTimestamps format t) from rfl,
                if_pos hlt]
              omega
            · rw [if_neg hlt,
                show descents (some p)
                  (parseDate h.day h.month h.year h.time format ::
                    validTimestamps format t) =
                  (if parseDate h.day h.month h.year h.time format < p
                   then 1 else 0) +
                    descents
                      (some (parseDate h.day h.month h.year h.time format))
                      (validTimestamps format t) from rfl,
                if_neg hlt]
              omega

theorem descents_some_zero (p : Int) (l : List Int)
    (h : List.Chain' (fun a b => a ≤ b) (p :: l)) :
    descents (some p) l = 0 := by
  induction l generalizing p with
  | nil => rfl
  | cons t rest ih =>
      obtain ⟨hpt, hrest⟩ := List.chain'_cons.mp h
      show (if t < p then 1 else 0) + descents (some t) rest = 0
      rw [if_neg (by omega), ih t hrest]

theorem descents_none_zero (l : List Int)
    (h : List.Chain' (fun a b => a ≤ b) l) :
    descents none l = 0 := by
  cases l with
  | nil => rfl
  | cons t rest =>
      show descents (some t) rest = 0
      exact descents_some_zero t rest h

/-- A non-decreasing day-first reading of the samples gives the
    day-first candidate zero decreases. -/
theorem dmyEval_decreases_zero (lines : List String)
    (h : List.Chain' (fun a b => a ≤ b)
      (validTimestamps Format.DMY (ambiguousSamplesOf lines))) :
    (dmyEval lines).decreases = 0 := by
  show (evalLoop Format.DMY (ambiguousSamplesOf lines)
    none none none 0 0).2.2.1 = 0
  rw [evalLoop_decreases, descents_none_zero _ h]

theorem betterEval_lt_dec (e1 e2 : FormatEval)
    (h : e1.decreases < e2.decreases) : betterEval e1 e2 = e1 := by
  unfold betterEval
  rw [if_pos (by omega), if_neg (by omega)]

theorem betterEval_gt_dec (e1 e2 : FormatEval)
    (h : e2.decreases < e1.decreases) : betterEval e1 e2 = e2 := by
  unfold betterEval
  rw [if_pos (by omega), if_pos h]

theorem betterEval_lt_span (e1 e2 : FormatEval)
    (hd : e1.decreases = e2.decreases) (hs : e1.span < e2.span) :
    betterEval e1 e2 = e1 := by
  unfold betterEval
  rw [if_neg (by omega), if_pos (by omega), if_neg (by omega)]

theorem betterEval_gt_span (e1 e2 : FormatEval)
    (hd : e1.decreases = e2.decreases) (hs : e2.span < e1.span) :
    betterEval e1 e2 = e2 := by
  unfold betterEval
  rw [if_neg (by omega), if_pos (by omega), if_pos hs]

theorem betterEval_gt_val (e1 e2 : FormatEval)
    (hd : e1.decreases = e2.decreases) (hs : e1.span = e2.span)
    (hv : e1.validCount < e2.validCount) : betterEval e1 e2 = e2 := by
  unfold betterEval
  rw [if_neg (by omega), if_neg (by omega), if_pos (by omega), if_pos hv]

theorem betterEval_le_val (e1 e2 : FormatEval)
    (hd : e1.decreases = e2.decreases) (hs : e1.span = e2.span)
    (hv : e2.validCount ≤ e1.validCount) : betterEval e1 e2 = e1 := by
  unfold betterEval
  rw [if_neg (by omega), if_neg (by omega)]
  by_cases h3 : e2.validCount ≠ e1.validCount
  · rw [if_pos h3, if_neg (by omega)]
  · rw [if_neg h3]

theorem dmyEval_format (lines : List String) :
    (dmyEval lines).format = Format.DMY :=
  rfl

theorem mdyEval_format (lines : List String) :
    (mdyEval lines).format = Format.MDY :=
  rfl

/-- **C2**: on an all-ambiguous transcript (every header has both date
    tokens ≤ 12) with at least one header, the resolver marks the result
    ambiguous with both candidates' metrics attached and picks the
    candidate with strictly fewer decreases, then strictly smaller span,
    then strictly greater valid count, keeping the day-first candidate
    on a full tie; consequently a non-decreasing day-first reading beats
    a month-first reading with at least one decrease. -/
theorem date_format_cascade (lines : List String)
    (hamb : lines.all headerAmbiguous = true)
    (hne : lines.filterMap matchMessageHeader ≠ []) :
    determineDateFormat lines =
        { format := (betterEval (dmyEval lines) (mdyEval lines)).format,
          ambiguous := true,
          candidates := [dmyEval lines, mdyEval lines] } ∧
      ((dmyEval lines).decreases < (mdyEval lines).decreases →
        (determineDateFormat lines).format = Format.DMY) ∧
      ((mdyEval lines).decreases < (dmyEval lines).decreases →
        (determineDateFormat lines).format = Format.MDY) ∧
      ((dmyEval lines).decreases = (mdyEval lines).decreases →
        (dmyEval lines).span < (mdyEval lines).span →
        (determineDateFormat lines).format = Format.DMY) ∧
      ((dmyEval lines).decreases = (mdyEval lines).decreases →
        (mdyEval lines).span < (dmyEval lines).span →
        (determineDateFormat lines).format = Format.MDY) ∧
      ((dmyEval lines).decreases = (mdyEval lines).decreases →
        (dmyEval lines).span = (mdyEval lines).span →
        (dmyEval lines).validCount < (mdyEval lines).validCount →
        (determineDateFormat lines).format = Format.MDY) ∧
      ((dmyEval lines).decreases = (mdyEval lines).decreases →
        (dmyEval lines).span = (mdyEval lines).span →
        (mdyEval lines).validCount ≤ (dmyEval lines).validCount →
        (determineDateFormat lines).format = Format.DMY) ∧
      (List.Chain' (fun a b => a ≤ b)
          (validTimestamps Format.DMY (ambiguousSamplesOf lines)) →
        0 < (mdyEval lines).decreases →
        (determineDateFormat lines).format = Format.DMY) := by
  have h0 := determineDateFormat_ambiguous lines hamb hne
  have hfmt : (determineDateFormat lines).format =
      (betterEval (dmyEval lines) (mdyEval lines)).format := by rw [h0]
  refine ⟨h0, ?_, ?_, ?_, ?_, ?_, ?_, ?_⟩
  · intro h
    rw [hfmt, betterEval_lt_dec _ _ h]
    exact dmyEval_format lines
  · intro h
    rw [hfmt, betterEval_gt_dec _ _ h]
    exact mdyEval_format lines
  · intro hd hs
    rw [hfmt, betterEval_lt_span _ _ hd hs]
    exact dmyEval_format lines
  · intro hd hs
    rw [hfmt, betterEval_gt_span _ _ hd hs]
    exact mdyEval_format lines
  · intro hd hs hv
    rw [hfmt, betterEval_gt_val _ _ hd hs hv]
    exact mdyEval_format lines
  · intro hd hs hv
    rw [hfmt, betterEval_le_val _ _ hd hs hv]
    exact dmyEval_format lines
  · intro hchain hpos
    have h1 : (dmyEval lines).decreases = 0 :=
      dmyEval_decreases_zero lines hchain
    rw [hfmt, betterEval_lt_dec _ _ (by omega)]
    exact dmyEval_format lines

def c2Lines : List String :=
  ["03/02/24, 09:00 - A: x", "02/03/24, 10:00 - B: y"]

theorem date_format_cascade_witness :
    c2Lines.all headerAmbiguous = true ∧
      c2Lines.filterMap matchMessageHeader ≠ [] ∧
      (determineDateFormat c2Lines =
          { format := (betterEval (dmyEval c2Lines)
              (mdyEval c2Lines)).format,
            ambiguous := true,
            candidates := [dmyEval c2Lines, mdyEval c2Lines] } ∧
        ((dmyEval c2Lines).decreases < (mdyEval c2Lines).decreases →
          (determineDateFormat c2Lines).format = Format.DMY) ∧
        ((mdyEval c2Lines).decreases < (dmyEval c2Lines).decreases →
          (determineDateFormat c2Lines).format = Format.MDY) ∧
        ((dmyEval c2Lines).decreases = (mdyEval c2Lines).decreases →
          (dmyEval c2Lines).span < (mdyEval c2Lines).span →
          (determineDateFormat c2Lines).format = Format.DMY) ∧
        ((dmyEval c2Lines).decreases = (mdyEval c2Lines).decreases →
          (mdyEval c2Lines).span < (dmyEval c2Lines).span →
          (determineDateFormat c2Lines).format = Format.MDY) ∧
        ((dmyEval c2Lines).decreases = (mdyEval c2Lines).decreases →
          (dmyEval c2Lines).span = (mdyEval c2Lines).span →
          (dmyEval c2Lines).validCount < (mdyEval c2Lines).validCount →
          (determineDateFormat c2Lines).format = Format.MDY) ∧
        ((dmyEval c2Lines).decreases = (mdyEval c2Lines).decreases →
          (dmyEval c2Lines).span = (mdyEval c2Lines).span →
          (mdyEval c2Lines).validCount ≤ (dmyEval c2Lines).validCount →
          (determineDateFormat c2Lines).format = Format.DMY) ∧
        (List.Chain' (fun a b => a ≤ b)
            (validTimestamps Format.DMY (ambiguousSamplesOf c2Lines)) →
          0 < (mdyEval c2Lines).decreases →
          (determineDateFormat c2Lines).format = Format.DMY)) :=
  ⟨by decide, by decide,
    date_format_cascade c2Lines (by decide) (by decide)⟩

end ChatCore
